import Mathlib

/-!
Verification model of the command-execution and location-reconciliation core
of rmf_fleet_adapter (EasyFullControl.cpp).

Coordinates, times and durations are modelled with rational numbers. The C++
compares Euclidean norms against thresholds; for nonnegative m we have
norm v <= m  iff  0 <= m and sqNorm v <= m^2, so every distance is carried as
its square, which keeps the model executable over rationals. Projection tests
such as proj < 0 or L < proj are rewritten with dot products against squared
lengths, which is equivalent whenever the segment is nondegenerate (L > 0).
-/

/-- 2D point or vector with rational coordinates. -/
structure Vec2 where
  x : ℚ
  y : ℚ
deriving DecidableEq, Repr

def Vec2.sub (a b : Vec2) : Vec2 := ⟨a.x - b.x, a.y - b.y⟩

def Vec2.dot (a b : Vec2) : ℚ := a.x * b.x + a.y * b.y

/-- Squared Euclidean norm. -/
def Vec2.sqNorm (a : Vec2) : ℚ := a.dot a

/-- A location sample (x, y, yaw), the Eigen::Vector3d of the C++. -/
structure Vec3 where
  x : ℚ
  y : ℚ
  yaw : ℚ
deriving DecidableEq, Repr

instance : Inhabited Vec3 := ⟨⟨0, 0, 0⟩⟩

def Vec3.xy (v : Vec3) : Vec2 := ⟨v.x, v.y⟩

/-- A directed lane of the navigation graph: entry and exit waypoint indices. -/
structure Lane where
  entry : Nat
  exit : Nat
deriving DecidableEq, Repr

instance : Inhabited Lane := ⟨⟨0, 0⟩⟩

/-- Read-only navigation graph view consumed by the reconciler:
waypoint locations, lanes, lane adjacency, reverse-lane lookup and the
current lane-closure flags. -/
structure Graph where
  waypoints : List Vec2
  lanes : List Lane
  lanes_from : Nat → List Nat
  lane_from : Nat → Nat → Option Nat
  is_closed : Nat → Bool

def Graph.num_waypoints (g : Graph) : Nat := g.waypoints.length

def Graph.num_lanes (g : Graph) : Nat := g.lanes.length

def Graph.get_waypoint (g : Graph) (i : Nat) : Vec2 := g.waypoints.getD i ⟨0, 0⟩

def Graph.get_lane (g : Graph) (i : Nat) : Lane := g.lanes.getD i default

/-- NavParams thresholds consumed by the reconciler. -/
structure NavParams where
  max_merge_waypoint_distance : ℚ
  max_merge_lane_distance : ℚ
  min_lane_length : ℚ
deriving DecidableEq, Repr

/-- rmf_traffic::agv::Plan::Start: a hypothesis of where the robot is. -/
structure PlanStart where
  time : ℚ
  waypoint : Nat
  orientation : ℚ
  location : Vec2
  lane : Option Nat
deriving DecidableEq, Repr

/-- One itinerary().cumulative_delay(plan_id, delay, threshold) write. -/
structure DelayUpdate where
  plan_id : Nat
  delay : ℚ
  threshold : ℚ
deriving DecidableEq, Repr

/-- One arrival_estimator invocation. The C++ reports the duration
sqrt(distSq)/v + rotation/w seconds; the four rational fields determine that
real number exactly, keeping the log decidable. -/
structure ArrivalEstimate where
  distSq : ℚ
  rotation : ℚ
  v : ℚ
  w : ℚ
deriving DecidableEq, Repr

/-- The per-robot mutable state touched by location updates: the live
location (set_location), the itinerary delay writes, the arrival estimates
and the replan requests. -/
structure ContextState where
  location : List PlanStart
  delays : List DelayUpdate
  arrival_estimates : List ArrivalEstimate
  replan_requests : Nat
deriving DecidableEq, Repr

/-- Nominal velocities from the planner configuration's vehicle traits. -/
structure VehicleTraits where
  linear_velocity : ℚ
  rotational_velocity : ℚ
deriving DecidableEq, Repr

/-- The planner handle: a graph plus vehicle traits. Consumed, not owned. -/
structure Planner where
  graph : Graph
  traits : VehicleTraits

/-- External environment of an update: the (possibly unavailable) planner,
the external rmf_traffic::agv::compute_plan_starts utility (an opaque
collaborator, arguments: graph, map, location, now, and the three NavParams
thresholds) and the current time. -/
structure Env where
  planner : Option Planner
  compute_plan_starts :
    Graph → String → Vec3 → ℚ → ℚ → ℚ → ℚ → List PlanStart
  now : ℚ

/-- One sample of a scheduled trajectory: timestamp and position. -/
structure TrajectoryWaypoint where
  time : ℚ
  position : Vec3
deriving DecidableEq, Repr

instance : Inhabited TrajectoryWaypoint := ⟨⟨0, default⟩⟩

/-- rmf_traffic::Route: a map name plus a timed trajectory. -/
structure Route where
  map : String
  trajectory : List TrajectoryWaypoint
deriving DecidableEq, Repr

/-- The ScheduleOverride record installed by override_schedule. -/
structure ScheduleOverride where
  route : Route
  plan_id : Nat
deriving DecidableEq, Repr

/-- CommandExecution::Implementation::Data without the callbacks: hinted
waypoints and lanes, the optional final orientation, the optional schedule
override and the NavParams. The arrival_estimator callback is modelled by
logging its argument into ContextState.arrival_estimates. -/
structure Data where
  waypoints : List Nat
  lanes : List Nat
  final_orientation : Option ℚ
  schedule_override : Option ScheduleOverride
  nav_params : NavParams

/-- The real comparison norm <= m encoded on squares: for the squared
distance sq, norm <= m iff 0 <= m and sq <= m^2. -/
def normWithin (sq m : ℚ) : Bool :=
  decide (0 ≤ m) && decide (sq ≤ m ^ 2)

/-- Dot product of (p - p0) with the segment direction (p1 - p0); equals
proj * L where proj is the C++ scalar projection and L the segment length. -/
def segDot (p p0 p1 : Vec2) : ℚ := (p.sub p0).dot (p1.sub p0)

/-- Squared length of the segment p0 to p1. -/
def segSqLen (p0 p1 : Vec2) : ℚ := (p1.sub p0).sqNorm

/-- Squared lateral distance of p from the line through p0 and p1; equals
the square of the C++ dist_to_lane when the segment is nondegenerate. -/
def segDistSq (p p0 p1 : Vec2) : ℚ :=
  (p.sub p0).sqNorm - segDot p p0 p1 ^ 2 / segSqLen p0 p1

/-- The first loop of Data::update_location: scan the hinted waypoints,
keeping the in-threshold waypoint of minimal distance. An index outside the
graph range aborts the whole update (the C++ early return), reported as
an error carrying the offending index. Distances are carried squared. -/
def findOnWaypoint (g : Graph) (params : NavParams) (p : Vec2) :
    List Nat → Option (Nat × ℚ) → Except Nat (Option (Nat × ℚ))
  | [], best => .ok best
  | wp :: rest, best =>
    if g.num_waypoints ≤ wp then
      .error wp
    else
      let distSq := (p.sub (g.get_waypoint wp)).sqNorm
      if normWithin distSq params.max_merge_waypoint_distance then
        match best with
        | none => findOnWaypoint g params p rest (some (wp, distSq))
        | some b =>
          if distSq < b.2 then findOnWaypoint g params p rest (some (wp, distSq))
          else findOnWaypoint g params p rest (some b)
      else
        findOnWaypoint g params p rest best

/-- The lanes_from loop of the waypoint-match branch: one PlanStart per
lane leaving the matched waypoint, skipping closed lanes; an out-of-range
lane id aborts the update. -/
def startsFromWaypoint (g : Graph) (now yaw : ℚ) (p : Vec2) :
    List Nat → List PlanStart → Except Nat (List PlanStart)
  | [], starts => .ok starts
  | lane_id :: rest, starts =>
    if g.num_lanes ≤ lane_id then
      .error lane_id
    else if g.is_closed lane_id then
      startsFromWaypoint g now yaw p rest starts
    else
      startsFromWaypoint g now yaw p rest
        (starts ++ [⟨now, (g.get_lane lane_id).exit, yaw, p, some lane_id⟩])

/-- The hinted-lane loop: project the sample onto each open hinted lane and
keep the accepted lane of minimal lateral distance. A degenerate lane
(coincident endpoints) yields NaN in the C++ which fails the threshold
test, so it is never accepted. Out-of-range lane ids abort the update. -/
def findOnLane (g : Graph) (params : NavParams) (p : Vec2) :
    List Nat → Option (Nat × ℚ) → Except Nat (Option (Nat × ℚ))
  | [], best => .ok best
  | lane_id :: rest, best =>
    if g.num_lanes ≤ lane_id then
      .error lane_id
    else if g.is_closed lane_id then
      findOnLane g params p rest best
    else
      let lane := g.get_lane lane_id
      let p0 := g.get_waypoint lane.entry
      let p1 := g.get_waypoint lane.exit
      if segSqLen p0 p1 = 0 then
        findOnLane g params p rest best
      else if segDot p p0 p1 < 0 ∨ segSqLen p0 p1 < segDot p p0 p1 then
        findOnLane g params p rest best
      else
        let distSq := segDistSq p p0 p1
        if normWithin distSq params.max_merge_lane_distance then
          match best with
          | none => findOnLane g params p rest (some (lane_id, distSq))
          | some b =>
            if distSq < b.2 then
              findOnLane g params p rest (some (lane_id, distSq))
            else findOnLane g params p rest (some b)
        else
          findOnLane g params p rest best

/-- Starts emitted on a hinted-lane match: a PlanStart for the exit
waypoint through the lane and, when the graph holds a reverse lane, a
second PlanStart for the entry waypoint through that reverse lane. -/
def startsFromLane (g : Graph) (now yaw : ℚ) (p : Vec2) (lane_id : Nat) :
    List PlanStart :=
  let lane := g.get_lane lane_id
  let first : PlanStart := ⟨now, lane.exit, yaw, p, some lane_id⟩
  match g.lane_from lane.exit lane.entry with
  | some rev => [first, ⟨now, lane.entry, yaw, p, some rev⟩]
  | none => [first]

/-- The start-set computation of Data::update_location without an active
override: hinted waypoints first, hinted lanes next, otherwise the external
whole-graph compute_plan_starts fallback. -/
def reconcileStarts (data : Data) (g : Graph)
    (cps : Graph → String → Vec3 → ℚ → ℚ → ℚ → ℚ → List PlanStart)
    (map : String) (location : Vec3) (now : ℚ) :
    Except Nat (List PlanStart) :=
  let p := location.xy
  let yaw := location.yaw
  match findOnWaypoint g data.nav_params p data.waypoints none with
  | .error wp => .error wp
  | .ok (some (wp, _)) =>
    startsFromWaypoint g now yaw p (g.lanes_from wp) [⟨now, wp, yaw, p, none⟩]
  | .ok none =>
    match findOnLane g data.nav_params p data.lanes none with
    | .error l => .error l
    | .ok (some (lane_id, _)) => .ok (startsFromLane g now yaw p lane_id)
    | .ok none =>
      .ok (cps g map location now
        data.nav_params.max_merge_waypoint_distance
        data.nav_params.max_merge_lane_distance
        data.nav_params.min_lane_length)

/-- The segment scan of overridden_update: walk consecutive trajectory
sample pairs, keeping the pair of minimal lateral distance among those whose
projection falls within the segment. There is no distance threshold here.
A degenerate pair (coincident positions) produces NaN comparisons in the
C++; the model skips such a pair, and the theorems over this function assume
nondegenerate trajectories. -/
def findClosestSegment (p : Vec2) :
    List TrajectoryWaypoint → Nat → Option (Nat × ℚ) → Option (Nat × ℚ)
  | w0 :: w1 :: rest, i0, best =>
    let p0 := w0.position.xy
    let p1 := w1.position.xy
    if segSqLen p0 p1 = 0 then
      findClosestSegment p (w1 :: rest) (i0 + 1) best
    else if segDot p p0 p1 < 0 ∨ segSqLen p0 p1 < segDot p p0 p1 then
      findClosestSegment p (w1 :: rest) (i0 + 1) best
    else
      let distSq := segDistSq p p0 p1
      match best with
      | none => findClosestSegment p (w1 :: rest) (i0 + 1) (some (i0, distSq))
      | some b =>
        if distSq < b.2 then
          findClosestSegment p (w1 :: rest) (i0 + 1) (some (i0, distSq))
        else findClosestSegment p (w1 :: rest) (i0 + 1) (some b)
  | _, _, best => best

/-- The fallback scan of overridden_update: the timestamp of the trajectory
sample closest to p, paired with its squared distance. -/
def findClosestTime (p : Vec2) :
    List TrajectoryWaypoint → Option (ℚ × ℚ) → Option (ℚ × ℚ)
  | [], best => best
  | w :: rest, best =>
    let distSq := (p.sub w.position.xy).sqNorm
    match best with
    | none => findClosestTime p rest (some (w.time, distSq))
    | some b =>
      if distSq < b.2 then findClosestTime p rest (some (w.time, distSq))
      else findClosestTime p rest (some b)

/-- The expected time at the projection onto segment i0 of the trajectory:
wp0.time + s * (wp1.time - wp0.time) with s = proj / lane_length, which
equals segDot / segSqLen. -/
def expectedTimeAt (traj : List TrajectoryWaypoint) (i0 : Nat) (p : Vec2) : ℚ :=
  let wp0 := traj.getD i0 default
  let wp1 := traj.getD (i0 + 1) default
  let p0 := wp0.position.xy
  let p1 := wp1.position.xy
  wp0.time + segDot p p0 p1 / segSqLen p0 p1 * (wp1.time - wp0.time)

/-- Data::overridden_update: write the cumulative delay for the override's
plan id (threshold one second), from the closest accepted segment when one
exists, otherwise from the closest trajectory sample; then, if the planner
is available, store the whole-graph compute_plan_starts result as the
robot's location. -/
def overridden_update (data : Data) (env : Env) (map : String)
    (location : Vec3) (so : ScheduleOverride) (ctx : ContextState) :
    ContextState :=
  let p := location.xy
  let route := so.route
  let plan_id := so.plan_id
  let closest_lane := findClosestSegment p route.trajectory 0 none
  let now := env.now
  let delay_thresh : ℚ := 1
  let ctx1 :=
    match closest_lane with
    | some (i0, _) =>
      let delay := now - expectedTimeAt route.trajectory i0 p
      { ctx with delays := ctx.delays ++ [⟨plan_id, delay, delay_thresh⟩] }
    | none =>
      match findClosestTime p route.trajectory none with
      | some closest_time =>
        { ctx with delays :=
            ctx.delays ++ [⟨plan_id, now - closest_time.1, delay_thresh⟩] }
      | none => ctx
  match env.planner with
  | none => ctx1
  | some planner =>
    { ctx1 with location :=
        (env.compute_plan_starts planner.graph map location now
          data.nav_params.max_merge_waypoint_distance
          data.nav_params.max_merge_lane_distance
          data.nav_params.min_lane_length) }

/-- Data::update_location: dispatch to overridden_update when an override is
active; otherwise reconcile against hinted waypoints, hinted lanes or the
whole graph, store the resulting starts via set_location, and report an
arrival estimate when the command has waypoints. Early returns (planner
unavailable, out-of-range index) leave the state untouched. -/
def Data.update_location (data : Data) (env : Env) (map : String)
    (location : Vec3) (ctx : ContextState) : ContextState :=
  match data.schedule_override with
  | some so => overridden_update data env map location so ctx
  | none =>
    match env.planner with
    | none => ctx
    | some planner =>
      let g := planner.graph
      match reconcileStarts data g env.compute_plan_starts map location env.now with
      | .error _ => ctx
      | .ok starts =>
        let ctx1 := { ctx with location := starts }
        match data.waypoints.getLast? with
        | none => ctx1
        | some last_wp =>
          let p := location.xy
          let distSq := ((g.get_waypoint last_wp).sub p).sqNorm
          let rotation :=
            match data.final_orientation with
            | some fo => |location.yaw - fo|
            | none => 0
          let v := max planner.traits.linear_velocity (1 / 1000)
          let w := max planner.traits.rotational_velocity (1 / 1000)
          { ctx1 with arrival_estimates :=
              ctx1.arrival_estimates ++ [⟨distSq, rotation, v, w⟩] }

/-- ActivityIdentifier: the token identifying the currently live command.
Its mutable update_fn slot is cleared (set to none) when the command
finishes or is stopped. -/
structure ActivityIdentifier where
  update_fn : Option (String → Vec3 → ContextState → ContextState)

/-- Faults an update can raise. Invoking an empty std::function in C++
raises std::bad_function_call. -/
inductive UpdateFault
  | badFunctionCall
deriving DecidableEq, Repr

/-- EasyRobotUpdateHandle::update_position, the body of the scheduled job.
With a current activity it invokes the identifier's update_fn with no null
check, so a cleared identifier raises std::bad_function_call. With no
current activity it computes the whole-graph compute_plan_starts result and
then drops it: no field of the context state is written. -/
def update_position (current_activity : Option ActivityIdentifier)
    (env : Env) (params : NavParams) (map_name : String) (position : Vec3)
    (ctx : ContextState) : Except UpdateFault ContextState :=
  match current_activity with
  | some act =>
    match act.update_fn with
    | some f => .ok (f map_name position ctx)
    | none => .error .badFunctionCall
  | none =>
    match env.planner with
    | none => .ok ctx
    | some planner =>
      let _starts :=
        env.compute_plan_starts planner.graph map_name position env.now
          params.max_merge_waypoint_distance
          params.max_merge_lane_distance
          params.min_lane_length
      .ok ctx

/-- StubbornOverride: the shared cell whose stubbornness member holds the
be_stubborn token. stubbornness = true models a non-null shared_ptr, so the
scheduler treats the robot as stubborn. -/
structure StubbornOverride where
  stubbornness : Bool
deriving DecidableEq, Repr

/-- The state a CommandExecution's finish and override_schedule jobs act
on: the identifier's update slot, whether data->schedule_override is set,
the weak-referenced StubbornOverride cell (none models an expired weak
pointer), and counters for the itinerary publications, replan requests and
sequencer advance invocations they produce. Jobs scheduled on the robot's
single serialized worker run in submission order, so consecutive jobs
compose as functions on this state. -/
structure CommandState where
  identifier : ActivityIdentifier
  has_override : Bool
  stubborn_cell : Option StubbornOverride
  itinerary_sets : Nat
  replan_requests : Nat
  finisher_calls : Nat

/-- The robot is stubborn exactly while a live StubbornOverride holds a
non-null stubbornness token. -/
def robotStubborn (s : CommandState) : Bool :=
  match s.stubborn_cell with
  | some c => c.stubbornness
  | none => false

/-- Data::release_stubbornness: when a schedule override is present and its
weak stubborn handle still locks, null out the stubbornness token. -/
def release_stubbornness (s : CommandState) : CommandState :=
  if s.has_override then
    match s.stubborn_cell with
    | some _ => { s with stubborn_cell := some ⟨false⟩ }
    | none => s
  else s

/-- The worker job scheduled by CommandExecution::Implementation::finish:
if the identifier is already inert, return; otherwise clear the update
function, then either release the stubbornness and request a replan (when a
schedule override is active) or invoke the sequencer's finisher
continuation. -/
def finishJob (s : CommandState) : CommandState :=
  match s.identifier.update_fn with
  | none => s
  | some _ =>
    let s1 := { s with identifier := ⟨none⟩ }
    if s1.has_override then
      let s2 := release_stubbornness s1
      { s2 with replan_requests := s2.replan_requests + 1 }
    else
      { s1 with finisher_calls := s1.finisher_calls + 1 }

/-- The worker job scheduled by override_schedule: a no-op when the command
is already finished or the planner is unavailable; otherwise release any
previous stubbornness, publish the new route to the itinerary, install the
ScheduleOverride whose weak handle points at the fresh StubbornOverride,
and make the robot stubborn through that cell. -/
def override_schedule_job (planner_available : Bool) (s : CommandState) :
    CommandState :=
  match s.identifier.update_fn with
  | none => s
  | some _ =>
    if planner_available then
      let s1 := release_stubbornness s
      { s1 with
        has_override := true
        itinerary_sets := s1.itinerary_sets + 1
        stubborn_cell := some ⟨true⟩ }
    else s

/-- Modelled from the spec: Stubbornness::release, the explicit release of
the handle returned by override_schedule, is not under src; per the spec it
must make the robot schedule-free again and be idempotent. It nulls the
stubbornness token of the handle's StubbornOverride cell. -/
def Stubbornness.release (s : CommandState) : CommandState :=
  match s.stubborn_cell with
  | some _ => { s with stubborn_cell := some ⟨false⟩ }
  | none => s

/-- Modelled from the spec: TriggerOnce, the fire-once completion sentinel
used by ProgressTracker, is not under src; per the spec it is a one-shot
sentinel whose callback fires exactly once. trigger returns the new sentinel
state and whether the callback fired. -/
structure TriggerOnce where
  fired : Bool
deriving DecidableEq, Repr

def TriggerOnce.trigger (t : TriggerOnce) : TriggerOnce × Bool :=
  if t.fired then (t, false) else (⟨true⟩, true)

/-- Observable events of a ProgressTracker run: a command's begin callback,
a command's completion (its finish job invoking the tracker's finisher
continuation), and the tracker's terminal completion callback. Commands are
identified by position. -/
inductive TrackerEvent
  | beginCmd (id : Nat)
  | completedCmd (id : Nat)
  | terminal
deriving DecidableEq, Repr

/-- ProgressTracker::next driven to completion: reverse_queue is the queue
in reverse order so the next command pops off the back; an empty queue
clears the current identifier and triggers the one-shot terminal callback;
otherwise the popped command's finisher is wired to call next again and its
begin callback is invoked. The driver models the integrator contract: each
begun command's finished() runs exactly once on the serialized worker
(possibly synchronously inside begin), which emits completedCmd and then
recurses into next. -/
def ProgressTracker.nextRun (reverse_queue : List Nat) (fin : TriggerOnce) :
    List TrackerEvent × TriggerOnce :=
  if h : reverse_queue.isEmpty then
    match fin.trigger with
    | (fin1, fired) => ((if fired then [.terminal] else []), fin1)
  else
    let c := reverse_queue.getLast (by
      intro hnil
      rw [hnil] at h
      simp at h)
    let rest := reverse_queue.dropLast
    let res := ProgressTracker.nextRun rest fin
    (.beginCmd c :: .completedCmd c :: res.1, res.2)
termination_by reverse_queue.length
decreasing_by
  cases reverse_queue with
  | nil => simp at h
  | cons a l => simp [List.dropLast]

/-- ProgressTracker::make followed by the first next(): reverse the queue,
start with an unfired TriggerOnce, and run to completion. -/
def ProgressTracker.run (queue : List Nat) : List TrackerEvent :=
  (ProgressTracker.nextRun queue.reverse ⟨false⟩).1

/-- size_t arithmetic is modulo 2^64. -/
def USIZE : Nat := 2 ^ 64

/-- The start-index clamp of EasyCommandHandle::follow_new_path: after a
connection is found at index i0, if i0 >= waypoints.size() - 1 then
i0 = waypoints.size() - 2, computed in size_t, so a single-waypoint path
wraps to 2^64 - 1. n is waypoints.size(), at least 1 past validation. -/
def follow_new_path_clamp_i0 (i0 n : Nat) : Nat :=
  if n - 1 ≤ i0 then (n + USIZE - 2) % USIZE else i0

/-- The indices (i0, i1) read by the first iteration of the command
decomposition loop of follow_new_path, or none when the loop body never
runs: i1 = i0 + 1 in size_t, and the loop runs while i1 < n. -/
def follow_new_path_first_indices (i0 n : Nat) : Option (Nat × Nat) :=
  let i0c := follow_new_path_clamp_i0 i0 n
  let i1 := (i0c + 1) % USIZE
  if i1 < n then some (i0c, i1) else none

/-- The id announced by a begin event, if any. -/
def beginId : TrackerEvent → Option Nat
  | .beginCmd i => some i
  | _ => none

/-- The trace a ProgressTracker run produces on a queue, derived below:
begin then completion of each command in queue order, then the terminal. -/
def expectedTrace : List Nat → List TrackerEvent
  | [] => [.terminal]
  | c :: cs => .beginCmd c :: .completedCmd c :: expectedTrace cs

/-- Squared distance from the sample to a waypoint's location. -/
def wpDistSq (g : Graph) (p : Vec2) (wp : Nat) : ℚ :=
  (p.sub (g.get_waypoint wp)).sqNorm

/-- Squared lateral distance of the sample from a graph lane's segment. -/
def laneDistSq (g : Graph) (p : Vec2) (l : Nat) : ℚ :=
  segDistSq p (g.get_waypoint (g.get_lane l).entry)
    (g.get_waypoint (g.get_lane l).exit)

/-- Acceptance test of the hinted-lane loop: the lane segment is
nondegenerate, the projection of the sample falls within [0, length], and
the lateral distance is within max_merge_lane_distance. -/
def laneAccepts (g : Graph) (params : NavParams) (p : Vec2) (l : Nat) : Bool :=
  let p0 := g.get_waypoint (g.get_lane l).entry
  let p1 := g.get_waypoint (g.get_lane l).exit
  !decide (segSqLen p0 p1 = 0) &&
  !decide (segDot p p0 p1 < 0 ∨ segSqLen p0 p1 < segDot p p0 p1) &&
  normWithin (segDistSq p p0 p1) params.max_merge_lane_distance

/-- Position of the i-th trajectory sample, projected to the plane. -/
def trajPos (traj : List TrajectoryWaypoint) (i : Nat) : Vec2 :=
  (traj.getD i default).position.xy

/-- Acceptance test of the override segment scan at segment i: the pair of
consecutive samples is nondegenerate and the projection of p falls within
[0, length]. There is no distance threshold in this scan. -/
def segAccepts (traj : List TrajectoryWaypoint) (p : Vec2) (i : Nat) : Bool :=
  !decide (segSqLen (trajPos traj i) (trajPos traj (i + 1)) = 0) &&
  !decide (segDot p (trajPos traj i) (trajPos traj (i + 1)) < 0 ∨
    segSqLen (trajPos traj i) (trajPos traj (i + 1)) <
      segDot p (trajPos traj i) (trajPos traj (i + 1)))

/-- Squared lateral distance of p from trajectory segment i. -/
def trajSegDistSq (traj : List TrajectoryWaypoint) (p : Vec2) (i : Nat) : ℚ :=
  segDistSq p (trajPos traj i) (trajPos traj (i + 1))

/-- Claim C1: an update delivered against an ActivityIdentifier whose
update function has been cleared is NOT a no-op in the code:
update_position invokes the identifier's update_fn with no null check, and
invoking an empty std::function raises std::bad_function_call. For every
command state, after its finish job runs, delivering update_position
against its identifier faults instead of leaving state unchanged. -/
theorem update_position_after_finish_faults
    (s : CommandState) (env : Env) (params : NavParams)
    (map_name : String) (position : Vec3) (ctx : ContextState) :
    update_position (some (finishJob s).identifier) env params map_name
      position ctx = .error .badFunctionCall := by
  unfold update_position finishJob
  cases h : s.identifier.update_fn <;> simp [h]
  cases h2 : s.has_override <;> simp [h2, release_stubbornness]
  cases h3 : s.stubborn_cell <;> simp

/-- Claim C2: CommandExecution::finished() is idempotent. The first run of
the finish job clears the identifier's update function and either releases
the stubbornness and requests exactly one replan (override active) or
invokes the sequencer's advance continuation exactly once (no override);
running the job again is a no-op, so the override is never released twice
and the tracker never advances twice. -/
theorem finished_idempotent (s : CommandState)
    (h : s.identifier.update_fn.isSome = true) :
    (finishJob s).identifier.update_fn = none ∧
    (s.has_override = true →
      (finishJob s).replan_requests = s.replan_requests + 1 ∧
      (finishJob s).finisher_calls = s.finisher_calls ∧
      robotStubborn (finishJob s) = false) ∧
    (s.has_override = false →
      (finishJob s).finisher_calls = s.finisher_calls + 1 ∧
      (finishJob s).replan_requests = s.replan_requests ∧
      (finishJob s).stubborn_cell = s.stubborn_cell) ∧
    finishJob (finishJob s) = finishJob s := by
  obtain ⟨⟨fn⟩, ov, cell, its, rp, fc⟩ := s
  cases fn with
  | none => simp at h
  | some f =>
    cases ov <;> cases cell <;>
      simp [finishJob, release_stubbornness, robotStubborn]

theorem finished_idempotent_witness :
    let s : CommandState :=
      { identifier := ⟨some (fun _ _ c => c)⟩
        has_override := true
        stubborn_cell := some ⟨true⟩
        itinerary_sets := 1
        replan_requests := 0
        finisher_calls := 0 }
    (finishJob s).identifier.update_fn = none ∧
    (s.has_override = true →
      (finishJob s).replan_requests = s.replan_requests + 1 ∧
      (finishJob s).finisher_calls = s.finisher_calls ∧
      robotStubborn (finishJob s) = false) ∧
    (s.has_override = false →
      (finishJob s).finisher_calls = s.finisher_calls + 1 ∧
      (finishJob s).replan_requests = s.replan_requests ∧
      (finishJob s).stubborn_cell = s.stubborn_cell) ∧
    finishJob (finishJob s) = finishJob s :=
  finished_idempotent _ (by simp)

/-- Claim C4: after override_schedule installed a ScheduleOverride on a
live command, the finish job leaves the robot not stubborn even when the
caller never released the Stubbornness handle; an explicit release before
finishing also ends not stubborn; releasing a second time, explicitly or
automatically, is a no-op. -/
theorem stubbornness_release_invariant (s : CommandState)
    (h : s.identifier.update_fn.isSome = true) :
    robotStubborn (override_schedule_job true s) = true ∧
    robotStubborn (finishJob (override_schedule_job true s)) = false ∧
    robotStubborn (finishJob (Stubbornness.release
      (override_schedule_job true s))) = false ∧
    Stubbornness.release (finishJob (override_schedule_job true s)) =
      finishJob (override_schedule_job true s) ∧
    (∀ t : CommandState,
      Stubbornness.release (Stubbornness.release t) =
        Stubbornness.release t) := by
  obtain ⟨⟨fn⟩, ov, cell, its, rp, fc⟩ := s
  cases fn with
  | none => simp at h
  | some f =>
    refine ⟨?_, ?_, ?_, ?_, ?_⟩
    · cases ov <;> cases cell <;>
        simp [override_schedule_job, release_stubbornness, robotStubborn]
    · cases ov <;> cases cell <;>
        simp [override_schedule_job, finishJob, release_stubbornness,
          robotStubborn]
    · cases ov <;> cases cell <;>
        simp [override_schedule_job, finishJob, Stubbornness.release,
          release_stubbornness, robotStubborn]
    · cases ov <;> cases cell <;>
        simp [override_schedule_job, finishJob, Stubbornness.release,
          release_stubbornness]
    · intro t
      cases hc : t.stubborn_cell <;> simp [Stubbornness.release, hc]

theorem stubbornness_release_invariant_witness :
    let s : CommandState :=
      { identifier := ⟨some (fun _ _ c => c)⟩
        has_override := false
        stubborn_cell := none
        itinerary_sets := 0
        replan_requests := 0
        finisher_calls := 0 }
    robotStubborn (override_schedule_job true s) = true ∧
    robotStubborn (finishJob (override_schedule_job true s)) = false ∧
    robotStubborn (finishJob (Stubbornness.release
      (override_schedule_job true s))) = false ∧
    Stubbornness.release (finishJob (override_schedule_job true s)) =
      finishJob (override_schedule_job true s) ∧
    (∀ t : CommandState,
      Stubbornness.release (Stubbornness.release t) =
        Stubbornness.release t) :=
  stubbornness_release_invariant _ (by simp)

/-- Claim C10: the command decomposition of follow_new_path does NOT keep
its indices in bounds for a single-waypoint path. With waypoints.size() = 1
and the connection found at index 0, the clamp i0 = size - 2 wraps in
size_t to 2^64 - 1, i1 wraps to 0, the loop guard 0 < 1 passes, and the
first iteration reads waypoints[2^64 - 1], far outside the bounds of the
one-element list. -/
theorem follow_new_path_single_waypoint_oob :
    follow_new_path_first_indices 0 1 = some (2 ^ 64 - 1, 0) ∧
    1 ≤ 2 ^ 64 - 1 := by
  constructor
  · unfold follow_new_path_first_indices follow_new_path_clamp_i0 USIZE
    norm_num
  · norm_num

theorem nextRun_nil (fin : TriggerOnce) :
    ProgressTracker.nextRun [] fin =
      (if fin.fired then [] else [.terminal],
       if fin.fired then fin else ⟨true⟩) := by
  obtain ⟨b⟩ := fin
  unfold ProgressTracker.nextRun
  cases b <;> simp [TriggerOnce.trigger]

theorem nextRun_concat (xs : List Nat) (x : Nat) (fin : TriggerOnce) :
    ProgressTracker.nextRun (xs ++ [x]) fin =
      (.beginCmd x :: .completedCmd x :: (ProgressTracker.nextRun xs fin).1,
       (ProgressTracker.nextRun xs fin).2) := by
  rw [ProgressTracker.nextRun]
  have hne : ¬(xs ++ [x]).isEmpty = true := by simp
  rw [dif_neg hne]
  simp [List.getLast_append, List.dropLast_append]

theorem run_eq_expectedTrace (queue : List Nat) :
    ProgressTracker.run queue = expectedTrace queue := by
  unfold ProgressTracker.run
  induction queue with
  | nil => simp [nextRun_nil, expectedTrace]
  | cons c cs ih =>
    have hrev : (c :: cs).reverse = cs.reverse ++ [c] := by simp
    rw [hrev, nextRun_concat]
    simpa [expectedTrace] using ih

theorem expectedTrace_filterMap (q : List Nat) :
    (expectedTrace q).filterMap beginId = q := by
  induction q with
  | nil => simp [expectedTrace, beginId]
  | cons c cs ih => simp [expectedTrace, beginId, ih]

theorem expectedTrace_count (q : List Nat) :
    (expectedTrace q).count TrackerEvent.terminal = 1 := by
  induction q with
  | nil => simp [expectedTrace]
  | cons c cs ih => simp [expectedTrace, ih, List.count_cons]

theorem expectedTrace_append (q : List Nat) :
    ∃ pre, expectedTrace q = pre ++ [TrackerEvent.terminal] := by
  induction q with
  | nil => exact ⟨[], rfl⟩
  | cons c cs ih =>
    obtain ⟨pre, hpre⟩ := ih
    exact ⟨.beginCmd c :: .completedCmd c :: pre, by simp [expectedTrace, hpre]⟩

theorem expectedTrace_getLast (q : List Nat) :
    (expectedTrace q).getLast? = some TrackerEvent.terminal := by
  obtain ⟨pre, hpre⟩ := expectedTrace_append q
  rw [hpre, List.getLast?_concat]

theorem expectedTrace_length (q : List Nat) :
    (expectedTrace q).length = 2 * q.length + 1 := by
  induction q with
  | nil => simp [expectedTrace]
  | cons c cs ih => simp [expectedTrace, ih]; ring

theorem expectedTrace_get (q : List Nat) :
    ∀ i, i < q.length →
      (expectedTrace q).get? (2 * i) =
        some (TrackerEvent.beginCmd (q.getD i 0)) ∧
      (expectedTrace q).get? (2 * i + 1) =
        some (TrackerEvent.completedCmd (q.getD i 0)) := by
  induction q with
  | nil => intro i h; simp at h
  | cons c cs ih =>
    intro i h
    cases i with
    | zero => simp [expectedTrace]
    | succ j =>
      have hj : j < cs.length := by simpa using h
      have h2 : 2 * (j + 1) = 2 * j + 1 + 1 := by ring
      rw [h2]
      simpa [expectedTrace] using ih j hj

/-- Claim C3: a ProgressTracker over a queue of N commands invokes exactly
N begin callbacks, in queue order at trace positions 2i, each preceded by
its predecessor's completion at position 2i - 1, and the terminal
completion callback fires exactly once, as the final event after the queue
is exhausted. The run drives each command's finished() synchronously from
its begin, the scenario the spec singles out. -/
theorem progress_tracker_trace (queue : List Nat) :
    (ProgressTracker.run queue).filterMap beginId = queue ∧
    (ProgressTracker.run queue).count TrackerEvent.terminal = 1 ∧
    (ProgressTracker.run queue).getLast? = some TrackerEvent.terminal ∧
    (ProgressTracker.run queue).length = 2 * queue.length + 1 ∧
    (∀ i, i < queue.length →
      (ProgressTracker.run queue).get? (2 * i) =
        some (TrackerEvent.beginCmd (queue.getD i 0)) ∧
      (ProgressTracker.run queue).get? (2 * i + 1) =
        some (TrackerEvent.completedCmd (queue.getD i 0))) := by
  rw [run_eq_expectedTrace]
  exact ⟨expectedTrace_filterMap queue, expectedTrace_count queue,
    expectedTrace_getLast queue, expectedTrace_length queue,
    expectedTrace_get queue⟩

theorem progress_tracker_trace_witness :
    (ProgressTracker.run [0, 1]).filterMap beginId = [0, 1] ∧
    (ProgressTracker.run [0, 1]).count TrackerEvent.terminal = 1 ∧
    (ProgressTracker.run [0, 1]).get? 2 =
      some (TrackerEvent.beginCmd 1) :=
  ⟨(progress_tracker_trace [0, 1]).1,
   (progress_tracker_trace [0, 1]).2.1,
   ((progress_tracker_trace [0, 1]).2.2.2.2 1 (by decide)).1⟩

theorem findOnWaypoint_ok_range (g : Graph) (params : NavParams) (p : Vec2) :
    ∀ (ws : List Nat) (best : Option (Nat × ℚ)) (r : Option (Nat × ℚ)),
      findOnWaypoint g params p ws best = .ok r →
      ∀ wp ∈ ws, wp < g.num_waypoints := by
  intro ws
  induction ws with
  | nil => intro best r _ wp hwp; simp at hwp
  | cons a rest ih =>
    intro best r hok wp hwp
    rw [findOnWaypoint] at hok
    by_cases ha : g.num_waypoints ≤ a
    · simp [ha] at hok
    · simp only [if_neg ha] at hok
      rcases List.mem_cons.mp hwp with hwp | hwp
      · omega
      · by_cases hw : normWithin (wpDistSq g p a)
          params.max_merge_waypoint_distance
        · rw [wpDistSq] at hw
          simp only [hw, if_true] at hok
          cases best with
          | none => exact ih _ r hok wp hwp
          | some b =>
            by_cases hlt : (p.sub (g.get_waypoint a)).sqNorm < b.2
            · simp only [if_pos hlt] at hok
              exact ih _ r hok wp hwp
            · simp only [if_neg hlt] at hok
              exact ih _ r hok wp hwp
        · rw [wpDistSq] at hw
          simp only [hw, if_false, Bool.false_eq_true] at hok
          exact ih _ r hok wp hwp

theorem findOnWaypoint_bad_index (g : Graph) (params : NavParams) (p : Vec2)
    (ws : List Nat) (best : Option (Nat × ℚ))
    (hbad : ∃ wp ∈ ws, g.num_waypoints ≤ wp) :
    ∃ e, findOnWaypoint g params p ws best = .error e := by
  obtain ⟨wp, hmem, hge⟩ := hbad
  cases h : findOnWaypoint g params p ws best with
  | error e => exact ⟨e, rfl⟩
  | ok r =>
    have := findOnWaypoint_ok_range g params p ws best r h wp hmem
    omega

theorem findOnWaypoint_ok_some (g : Graph) (params : NavParams) (p : Vec2) :
    ∀ (ws : List Nat) (best : Option (Nat × ℚ)) (w : Nat) (d : ℚ),
      findOnWaypoint g params p ws best = .ok (some (w, d)) →
      (best = some (w, d) ∨
        (w ∈ ws ∧
          normWithin (wpDistSq g p w) params.max_merge_waypoint_distance =
            true ∧
          d = wpDistSq g p w)) ∧
      (∀ wp ∈ ws,
        normWithin (wpDistSq g p wp) params.max_merge_waypoint_distance =
          true →
        d ≤ wpDistSq g p wp) ∧
      (∀ b : Nat × ℚ, best = some b → d ≤ b.2) := by
  intro ws
  induction ws with
  | nil =>
    intro best w d hok
    rw [findOnWaypoint] at hok
    simp at hok
    refine ⟨.inl hok, by simp, ?_⟩
    intro b hb
    rw [hok] at hb
    injection hb with hb2
    rw [← hb2]
  | cons a rest ih =>
    intro best w d hok
    rw [findOnWaypoint] at hok
    by_cases ha : g.num_waypoints ≤ a
    · simp [ha] at hok
    · simp only [if_neg ha] at hok
      by_cases hw : normWithin (wpDistSq g p a)
        params.max_merge_waypoint_distance
      · rw [wpDistSq] at hw
        simp only [hw, if_true] at hok
        cases best with
        | none =>
          obtain ⟨hsrc, hmin, hbest⟩ := ih _ w d hok
          have hda : d ≤ (p.sub (g.get_waypoint a)).sqNorm :=
            hbest (a, (p.sub (g.get_waypoint a)).sqNorm) rfl
          refine ⟨?_, ?_, by simp⟩
          · rcases hsrc with hsrc | hsrc
            · have hpair := Option.some.inj hsrc
              have hwa : w = a := (congrArg Prod.fst hpair).symm
              have hdd : d = (p.sub (g.get_waypoint a)).sqNorm :=
                (congrArg Prod.snd hpair).symm
              subst hwa
              right
              exact ⟨List.mem_cons_self _ _,
                by rw [wpDistSq]; exact hw,
                by rw [wpDistSq]; exact hdd⟩
            · right
              exact ⟨List.mem_cons_of_mem _ hsrc.1, hsrc.2.1, hsrc.2.2⟩
          · intro wp hmem hwin
            rcases List.mem_cons.mp hmem with hwp | hwp
            · rw [hwp, wpDistSq]; exact hda
            · exact hmin wp hwp hwin
        | some b =>
          by_cases hlt : (p.sub (g.get_waypoint a)).sqNorm < b.2
          · simp only [if_pos hlt] at hok
            obtain ⟨hsrc, hmin, hbest⟩ := ih _ w d hok
            have hda : d ≤ (p.sub (g.get_waypoint a)).sqNorm :=
              hbest (a, (p.sub (g.get_waypoint a)).sqNorm) rfl
            refine ⟨?_, ?_, ?_⟩
            · rcases hsrc with hsrc | hsrc
              · have hpair := Option.some.inj hsrc
                have hwa : w = a := (congrArg Prod.fst hpair).symm
                have hdd : d = (p.sub (g.get_waypoint a)).sqNorm :=
                  (congrArg Prod.snd hpair).symm
                subst hwa
                right
                exact ⟨List.mem_cons_self _ _,
                  by rw [wpDistSq]; exact hw,
                  by rw [wpDistSq]; exact hdd⟩
              · right
                exact ⟨List.mem_cons_of_mem _ hsrc.1, hsrc.2.1, hsrc.2.2⟩
            · intro wp hmem hwin
              rcases List.mem_cons.mp hmem with hwp | hwp
              · rw [hwp, wpDistSq]; exact hda
              · exact hmin wp hwp hwin
            · intro b2 hb2
              injection hb2 with hb2
              rw [← hb2]
              calc d ≤ (p.sub (g.get_waypoint a)).sqNorm := hda
                _ ≤ b.2 := le_of_lt hlt
          · simp only [if_neg hlt] at hok
            obtain ⟨hsrc, hmin, hbest⟩ := ih _ w d hok
            have hdb : d ≤ b.2 := hbest _ rfl
            refine ⟨?_, ?_, ?_⟩
            · rcases hsrc with hsrc | hsrc
              · left; exact hsrc
              · right
                exact ⟨List.mem_cons_of_mem _ hsrc.1, hsrc.2.1, hsrc.2.2⟩
            · intro wp hmem hwin
              rcases List.mem_cons.mp hmem with hwp | hwp
              · rw [hwp, wpDistSq]
                push_neg at hlt
                calc d ≤ b.2 := hdb
                  _ ≤ (p.sub (g.get_waypoint a)).sqNorm := hlt
              · exact hmin wp hwp hwin
            · intro b2 hb2
              injection hb2 with hb2
              rw [← hb2]
              exact hdb
      · rw [wpDistSq] at hw
        simp only [hw, if_false, Bool.false_eq_true] at hok
        obtain ⟨hsrc, hmin, hbest⟩ := ih _ w d hok
        refine ⟨?_, ?_, hbest⟩
        · rcases hsrc with hsrc | hsrc
          · left; exact hsrc
          · right
            exact ⟨List.mem_cons_of_mem _ hsrc.1, hsrc.2.1, hsrc.2.2⟩
        · intro wp hmem hwin
          rcases List.mem_cons.mp hmem with hwp | hwp
          · rw [hwp] at hwin
            rw [wpDistSq] at hwin
            rw [hwin] at hw
            simp at hw
          · exact hmin wp hwp hwin

theorem findOnWaypoint_ok_none (g : Graph) (params : NavParams) (p : Vec2) :
    ∀ (ws : List Nat) (best : Option (Nat × ℚ)),
      findOnWaypoint g params p ws best = .ok none →
      best = none ∧
      ∀ wp ∈ ws,
        normWithin (wpDistSq g p wp) params.max_merge_waypoint_distance =
          false := by
  intro ws
  induction ws with
  | nil =>
    intro best hok
    rw [findOnWaypoint] at hok
    simp at hok
    exact ⟨hok, by simp⟩
  | cons a rest ih =>
    intro best hok
    rw [findOnWaypoint] at hok
    by_cases ha : g.num_waypoints ≤ a
    · simp [ha] at hok
    · simp only [if_neg ha] at hok
      by_cases hw : normWithin (wpDistSq g p a)
        params.max_merge_waypoint_distance
      · rw [wpDistSq] at hw
        simp only [hw, if_true] at hok
        cases best with
        | none =>
          have := (ih _ hok).1
          simp at this
        | some b =>
          by_cases hlt : (p.sub (g.get_waypoint a)).sqNorm < b.2
          · simp only [if_pos hlt] at hok
            have := (ih _ hok).1
            simp at this
          · simp only [if_neg hlt] at hok
            have := (ih _ hok).1
            simp at this
      · rw [wpDistSq] at hw
        simp only [hw, if_false, Bool.false_eq_true] at hok
        obtain ⟨hb, hall⟩ := ih _ hok
        refine ⟨hb, ?_⟩
        intro wp hmem
        rcases List.mem_cons.mp hmem with hwp | hwp
        · rw [hwp, wpDistSq]
          simpa using hw
        · exact hall wp hwp

theorem findOnLane_ok_range (g : Graph) (params : NavParams) (p : Vec2) :
    ∀ (ls : List Nat) (best : Option (Nat × ℚ)) (r : Option (Nat × ℚ)),
      findOnLane g params p ls best = .ok r →
      ∀ l ∈ ls, l < g.num_lanes := by
  intro ls
  induction ls with
  | nil => intro best r _ l hl; simp at hl
  | cons a rest ih =>
    intro best r hok l hl
    rw [findOnLane] at hok
    by_cases ha : g.num_lanes ≤ a
    · simp [ha] at hok
    · simp only [if_neg ha] at hok
      rcases List.mem_cons.mp hl with hl | hl
      · omega
      · by_cases hcl : g.is_closed a
        · simp only [hcl, if_true] at hok
          exact ih _ r hok l hl
        · simp only [hcl, Bool.false_eq_true, if_false] at hok
          by_cases hz : segSqLen (g.get_waypoint (g.get_lane a).entry)
            (g.get_waypoint (g.get_lane a).exit) = 0
          · simp only [if_pos hz] at hok
            exact ih _ r hok l hl
          · simp only [if_neg hz] at hok
            by_cases hpr : segDot p (g.get_waypoint (g.get_lane a).entry)
                (g.get_waypoint (g.get_lane a).exit) < 0 ∨
                segSqLen (g.get_waypoint (g.get_lane a).entry)
                  (g.get_waypoint (g.get_lane a).exit) <
                segDot p (g.get_waypoint (g.get_lane a).entry)
                  (g.get_waypoint (g.get_lane a).exit)
            · simp only [if_pos hpr] at hok
              exact ih _ r hok l hl
            · simp only [if_neg hpr] at hok
              by_cases hwn : normWithin (segDistSq p
                  (g.get_waypoint (g.get_lane a).entry)
                  (g.get_waypoint (g.get_lane a).exit))
                  params.max_merge_lane_distance
              · simp only [hwn, if_true] at hok
                cases best with
                | none => exact ih _ r hok l hl
                | some b =>
                  by_cases hlt : segDistSq p
                      (g.get_waypoint (g.get_lane a).entry)
                      (g.get_waypoint (g.get_lane a).exit) < b.2
                  · simp only [if_pos hlt] at hok
                    exact ih _ r hok l hl
                  · simp only [if_neg hlt] at hok
                    exact ih _ r hok l hl
              · simp only [hwn, Bool.false_eq_true, if_false] at hok
                exact ih _ r hok l hl

theorem findOnLane_bad_index (g : Graph) (params : NavParams) (p : Vec2)
    (ls : List Nat) (best : Option (Nat × ℚ))
    (hbad : ∃ l ∈ ls, g.num_lanes ≤ l) :
    ∃ e, findOnLane g params p ls best = .error e := by
  obtain ⟨l, hmem, hge⟩ := hbad
  cases h : findOnLane g params p ls best with
  | error e => exact ⟨e, rfl⟩
  | ok r =>
    have := findOnLane_ok_range g params p ls best r h l hmem
    omega

theorem findOnLane_ok_some (g : Graph) (params : NavParams) (p : Vec2) :
    ∀ (ls : List Nat) (best : Option (Nat × ℚ)) (L : Nat) (d : ℚ),
      findOnLane g params p ls best = .ok (some (L, d)) →
      (best = some (L, d) ∨
        (L ∈ ls ∧ g.is_closed L = false ∧
          laneAccepts g params p L = true ∧ d = laneDistSq g p L)) ∧
      (∀ l ∈ ls, g.is_closed l = false → laneAccepts g params p l = true →
        d ≤ laneDistSq g p l) ∧
      (∀ b : Nat × ℚ, best = some b → d ≤ b.2) := by
  intro ls
  induction ls with
  | nil =>
    intro best L d hok
    rw [findOnLane] at hok
    simp at hok
    refine ⟨.inl hok, by simp, ?_⟩
    intro b hb
    rw [hok] at hb
    injection hb with hb2
    rw [← hb2]
  | cons a rest ih =>
    intro best L d hok
    rw [findOnLane] at hok
    by_cases ha : g.num_lanes ≤ a
    · simp [ha] at hok
    · simp only [if_neg ha] at hok
      by_cases hcl : g.is_closed a
      · simp only [hcl, if_true] at hok
        obtain ⟨hsrc, hmin, hbest⟩ := ih _ L d hok
        refine ⟨?_, ?_, hbest⟩
        · rcases hsrc with hsrc | hsrc
          · left; exact hsrc
          · right
            exact ⟨List.mem_cons_of_mem _ hsrc.1, hsrc.2.1, hsrc.2.2.1,
              hsrc.2.2.2⟩
        · intro l hmem hop hacc
          rcases List.mem_cons.mp hmem with hl | hl
          · rw [hl] at hop; rw [hop] at hcl; simp at hcl
          · exact hmin l hl hop hacc
      · simp only [hcl, Bool.false_eq_true, if_false] at hok
        by_cases hz : segSqLen (g.get_waypoint (g.get_lane a).entry)
          (g.get_waypoint (g.get_lane a).exit) = 0
        · simp only [if_pos hz] at hok
          obtain ⟨hsrc, hmin, hbest⟩ := ih _ L d hok
          refine ⟨?_, ?_, hbest⟩
          · rcases hsrc with hsrc | hsrc
            · left; exact hsrc
            · right
              exact ⟨List.mem_cons_of_mem _ hsrc.1, hsrc.2.1, hsrc.2.2.1,
                hsrc.2.2.2⟩
          · intro l hmem hop hacc
            rcases List.mem_cons.mp hmem with hl | hl
            · rw [hl] at hacc
              simp [laneAccepts, hz] at hacc
            · exact hmin l hl hop hacc
        · simp only [if_neg hz] at hok
          by_cases hpr : segDot p (g.get_waypoint (g.get_lane a).entry)
              (g.get_waypoint (g.get_lane a).exit) < 0 ∨
              segSqLen (g.get_waypoint (g.get_lane a).entry)
                (g.get_waypoint (g.get_lane a).exit) <
              segDot p (g.get_waypoint (g.get_lane a).entry)
                (g.get_waypoint (g.get_lane a).exit)
          · simp only [if_pos hpr] at hok
            obtain ⟨hsrc, hmin, hbest⟩ := ih _ L d hok
            refine ⟨?_, ?_, hbest⟩
            · rcases hsrc with hsrc | hsrc
              · left; exact hsrc
              · right
                exact ⟨List.mem_cons_of_mem _ hsrc.1, hsrc.2.1, hsrc.2.2.1,
                  hsrc.2.2.2⟩
            · intro l hmem hop hacc
              rcases List.mem_cons.mp hmem with hl | hl
              · rw [hl] at hacc
                simp [laneAccepts, hz, hpr] at hacc
              · exact hmin l hl hop hacc
          · simp only [if_neg hpr] at hok
            by_cases hwn : normWithin (segDistSq p
                (g.get_waypoint (g.get_lane a).entry)
                (g.get_waypoint (g.get_lane a).exit))
                params.max_merge_lane_distance
            · simp only [hwn, if_true] at hok
              have hacc_a : laneAccepts g params p a = true := by
                simp [laneAccepts, hz, hpr, hwn]
              cases best with
              | none =>
                obtain ⟨hsrc, hmin, hbest⟩ := ih _ L d hok
                have hda : d ≤ segDistSq p
                    (g.get_waypoint (g.get_lane a).entry)
                    (g.get_waypoint (g.get_lane a).exit) :=
                  hbest (a, segDistSq p (g.get_waypoint (g.get_lane a).entry)
                    (g.get_waypoint (g.get_lane a).exit)) rfl
                refine ⟨?_, ?_, by simp⟩
                · rcases hsrc with hsrc | hsrc
                  · have hpair := Option.some.inj hsrc
                    have hwa : L = a := (congrArg Prod.fst hpair).symm
                    have hdd : d = segDistSq p
                        (g.get_waypoint (g.get_lane a).entry)
                        (g.get_waypoint (g.get_lane a).exit) :=
                      (congrArg Prod.snd hpair).symm
                    subst hwa
                    right
                    refine ⟨List.mem_cons_self _ _, by simpa using hcl,
                      hacc_a, ?_⟩
                    rw [laneDistSq]
                    exact hdd
                  · right
                    exact ⟨List.mem_cons_of_mem _ hsrc.1, hsrc.2.1,
                      hsrc.2.2.1, hsrc.2.2.2⟩
                · intro l hmem hop hacc
                  rcases List.mem_cons.mp hmem with hl | hl
                  · rw [hl, laneDistSq]
                    exact hda
                  · exact hmin l hl hop hacc
              | some b =>
                by_cases hlt : segDistSq p
                    (g.get_waypoint (g.get_lane a).entry)
                    (g.get_waypoint (g.get_lane a).exit) < b.2
                · simp only [if_pos hlt] at hok
                  obtain ⟨hsrc, hmin, hbest⟩ := ih _ L d hok
                  have hda : d ≤ segDistSq p
                      (g.get_waypoint (g.get_lane a).entry)
                      (g.get_waypoint (g.get_lane a).exit) :=
                    hbest (a, segDistSq p
                      (g.get_waypoint (g.get_lane a).entry)
                      (g.get_waypoint (g.get_lane a).exit)) rfl
                  refine ⟨?_, ?_, ?_⟩
                  · rcases hsrc with hsrc | hsrc
                    · have hpair := Option.some.inj hsrc
                      have hwa : L = a := (congrArg Prod.fst hpair).symm
                      have hdd : d = segDistSq p
                          (g.get_waypoint (g.get_lane a).entry)
                          (g.get_waypoint (g.get_lane a).exit) :=
                        (congrArg Prod.snd hpair).symm
                      subst hwa
                      right
                      refine ⟨List.mem_cons_self _ _, by simpa using hcl,
                        hacc_a, ?_⟩
                      rw [laneDistSq]
                      exact hdd
                    · right
                      exact ⟨List.mem_cons_of_mem _ hsrc.1, hsrc.2.1,
                        hsrc.2.2.1, hsrc.2.2.2⟩
                  · intro l hmem hop hacc
                    rcases List.mem_cons.mp hmem with hl | hl
                    · rw [hl, laneDistSq]
                      exact hda
                    · exact hmin l hl hop hacc
                  · intro b2 hb2
                    injection hb2 with hb2
                    rw [← hb2]
                    calc d ≤ segDistSq p
                          (g.get_waypoint (g.get_lane a).entry)
                          (g.get_waypoint (g.get_lane a).exit) := hda
                      _ ≤ b.2 := le_of_lt hlt
                · simp only [if_neg hlt] at hok
                  obtain ⟨hsrc, hmin, hbest⟩ := ih _ L d hok
                  have hdb : d ≤ b.2 := hbest _ rfl
                  refine ⟨?_, ?_, ?_⟩
                  · rcases hsrc with hsrc | hsrc
                    · left; exact hsrc
                    · right
                      exact ⟨List.mem_cons_of_mem _ hsrc.1, hsrc.2.1,
                        hsrc.2.2.1, hsrc.2.2.2⟩
                  · intro l hmem hop hacc
                    rcases List.mem_cons.mp hmem with hl | hl
                    · rw [hl, laneDistSq]
                      push_neg at hlt
                      calc d ≤ b.2 := hdb
                        _ ≤ segDistSq p
                            (g.get_waypoint (g.get_lane a).entry)
                            (g.get_waypoint (g.get_lane a).exit) := hlt
                    · exact hmin l hl hop hacc
                  · intro b2 hb2
                    injection hb2 with hb2
                    rw [← hb2]
                    exact hdb
            · simp only [hwn, Bool.false_eq_true, if_false] at hok
              obtain ⟨hsrc, hmin, hbest⟩ := ih _ L d hok
              refine ⟨?_, ?_, hbest⟩
              · rcases hsrc with hsrc | hsrc
                · left; exact hsrc
                · right
                  exact ⟨List.mem_cons_of_mem _ hsrc.1, hsrc.2.1,
                    hsrc.2.2.1, hsrc.2.2.2⟩
              · intro l hmem hop hacc
                rcases List.mem_cons.mp hmem with hl | hl
                · rw [hl] at hacc
                  simp [laneAccepts, hz, hpr, hwn] at hacc
                · exact hmin l hl hop hacc

theorem findOnLane_ok_none (g : Graph) (params : NavParams) (p : Vec2) :
    ∀ (ls : List Nat) (best : Option (Nat × ℚ)),
      findOnLane g params p ls best = .ok none →
      best = none ∧
      ∀ l ∈ ls, g.is_closed l = false → laneAccepts g params p l = false := by
  intro ls
  induction ls with
  | nil =>
    intro best hok
    rw [findOnLane] at hok
    simp at hok
    exact ⟨hok, by simp⟩
  | cons a rest ih =>
    intro best hok
    rw [findOnLane] at hok
    by_cases ha : g.num_lanes ≤ a
    · simp [ha] at hok
    · simp only [if_neg ha] at hok
      by_cases hcl : g.is_closed a
      · simp only [hcl, if_true] at hok
        obtain ⟨hb, hall⟩ := ih _ hok
        refine ⟨hb, ?_⟩
        intro l hmem hop
        rcases List.mem_cons.mp hmem with hl | hl
        · rw [hl] at hop; rw [hop] at hcl; simp at hcl
        · exact hall l hl hop
      · simp only [hcl, Bool.false_eq_true, if_false] at hok
        by_cases hz : segSqLen (g.get_waypoint (g.get_lane a).entry)
          (g.get_waypoint (g.get_lane a).exit) = 0
        · simp only [if_pos hz] at hok
          obtain ⟨hb, hall⟩ := ih _ hok
          refine ⟨hb, ?_⟩
          intro l hmem hop
          rcases List.mem_cons.mp hmem with hl | hl
          · rw [hl]
            simp [laneAccepts, hz]
          · exact hall l hl hop
        · simp only [if_neg hz] at hok
          by_cases hpr : segDot p (g.get_waypoint (g.get_lane a).entry)
              (g.get_waypoint (g.get_lane a).exit) < 0 ∨
              segSqLen (g.get_waypoint (g.get_lane a).entry)
                (g.get_waypoint (g.get_lane a).exit) <
              segDot p (g.get_waypoint (g.get_lane a).entry)
                (g.get_waypoint (g.get_lane a).exit)
          · simp only [if_pos hpr] at hok
            obtain ⟨hb, hall⟩ := ih _ hok
            refine ⟨hb, ?_⟩
            intro l hmem hop
            rcases List.mem_cons.mp hmem with hl | hl
            · rw [hl]
              simp [laneAccepts, hpr]
            · exact hall l hl hop
          · simp only [if_neg hpr] at hok
            by_cases hwn : normWithin (segDistSq p
                (g.get_waypoint (g.get_lane a).entry)
                (g.get_waypoint (g.get_lane a).exit))
                params.max_merge_lane_distance
            · simp only [hwn, if_true] at hok
              cases best with
              | none =>
                have := (ih _ hok).1
                simp at this
              | some b =>
                by_cases hlt : segDistSq p
                    (g.get_waypoint (g.get_lane a).entry)
                    (g.get_waypoint (g.get_lane a).exit) < b.2
                · simp only [if_pos hlt] at hok
                  have := (ih _ hok).1
                  simp at this
                · simp only [if_neg hlt] at hok
                  have := (ih _ hok).1
                  simp at this
            · simp only [hwn, Bool.false_eq_true, if_false] at hok
              obtain ⟨hb, hall⟩ := ih _ hok
              refine ⟨hb, ?_⟩
              intro l hmem hop
              rcases List.mem_cons.mp hmem with hl | hl
              · rw [hl]
                have hwn2 : normWithin (segDistSq p
                    (g.get_waypoint (g.get_lane a).entry)
                    (g.get_waypoint (g.get_lane a).exit))
                    params.max_merge_lane_distance = false := by
                  simpa using hwn
                simp [laneAccepts, hwn2]
              · exact hall l hl hop

theorem startsFromWaypoint_ok (g : Graph) (now yaw : ℚ) (p : Vec2) :
    ∀ (ls : List Nat) (acc : List PlanStart),
      (∀ l ∈ ls, l < g.num_lanes) →
      startsFromWaypoint g now yaw p ls acc =
        .ok (acc ++ (ls.filter (fun l => !g.is_closed l)).map
          (fun l => ⟨now, (g.get_lane l).exit, yaw, p, some l⟩)) := by
  intro ls
  induction ls with
  | nil => intro acc _; simp [startsFromWaypoint]
  | cons a rest ih =>
    intro acc h
    have ha : a < g.num_lanes := h a (List.mem_cons_self _ _)
    rw [startsFromWaypoint]
    rw [if_neg (by omega)]
    by_cases hcl : g.is_closed a
    · rw [if_pos hcl]
      rw [ih acc (fun l hl => h l (List.mem_cons_of_mem _ hl))]
      simp [hcl]
    · rw [if_neg hcl]
      rw [ih _ (fun l hl => h l (List.mem_cons_of_mem _ hl))]
      have hcl2 : g.is_closed a = false := by simpa using hcl
      simp [hcl2]

theorem update_location_ok_starts (data : Data) (env : Env)
    (planner : Planner) (map : String) (location : Vec3)
    (ctx : ContextState) (starts : List PlanStart)
    (hso : data.schedule_override = none)
    (hpl : env.planner = some planner)
    (hrs : reconcileStarts data planner.graph env.compute_plan_starts map
      location env.now = .ok starts) :
    (data.update_location env map location ctx).location = starts ∧
    (data.update_location env map location ctx).delays = ctx.delays ∧
    (data.update_location env map location ctx).replan_requests =
      ctx.replan_requests := by
  simp only [Data.update_location, hso, hpl, hrs]
  cases data.waypoints.getLast? <;> simp

theorem update_location_error (data : Data) (env : Env) (planner : Planner)
    (map : String) (location : Vec3) (ctx : ContextState) (e : Nat)
    (hso : data.schedule_override = none)
    (hpl : env.planner = some planner)
    (hrs : reconcileStarts data planner.graph env.compute_plan_starts map
      location env.now = .error e) :
    data.update_location env map location ctx = ctx := by
  simp only [Data.update_location, hso, hpl, hrs]

/-- Claim C5: for an update without an active override, when the hinted
waypoint scan matches, the matched waypoint is a hinted one within
max_merge_waypoint_distance and is the unique minimal-distance winner of
its category; the stored start set is exactly one PlanStart on the matched
waypoint plus one per non-closed lane leaving it, every closed lane
excluded; and the hinted-lane scan and the whole-graph fallback play no
part: the result is unchanged under any replacement of the lane hints and
of the fallback utility. -/
theorem update_location_waypoint_match
    (data : Data) (env : Env) (planner : Planner) (map : String)
    (location : Vec3) (ctx : ContextState) (W : Nat) (d2 : ℚ)
    (hso : data.schedule_override = none)
    (hpl : env.planner = some planner)
    (hwp : findOnWaypoint planner.graph data.nav_params location.xy
      data.waypoints none = .ok (some (W, d2)))
    (hlanes : ∀ l ∈ planner.graph.lanes_from W, l < planner.graph.num_lanes) :
    (W ∈ data.waypoints ∧
      normWithin (wpDistSq planner.graph location.xy W)
        data.nav_params.max_merge_waypoint_distance = true ∧
      d2 = wpDistSq planner.graph location.xy W ∧
      (∀ wp ∈ data.waypoints,
        normWithin (wpDistSq planner.graph location.xy wp)
          data.nav_params.max_merge_waypoint_distance = true →
        d2 ≤ wpDistSq planner.graph location.xy wp)) ∧
    (data.update_location env map location ctx).location =
      ⟨env.now, W, location.yaw, location.xy, none⟩ ::
        ((planner.graph.lanes_from W).filter
          (fun l => !planner.graph.is_closed l)).map
          (fun l => ⟨env.now, (planner.graph.get_lane l).exit,
            location.yaw, location.xy, some l⟩) ∧
    (∀ (lanes2 : List Nat)
        (cps2 : Graph → String → Vec3 → ℚ → ℚ → ℚ → ℚ → List PlanStart),
      ({ data with lanes := lanes2 } : Data).update_location
        { env with compute_plan_starts := cps2 } map location ctx =
        data.update_location env map location ctx) := by
  obtain ⟨hsrc, hmin, _⟩ := findOnWaypoint_ok_some planner.graph
    data.nav_params location.xy data.waypoints none W d2 hwp
  have hsrc2 : W ∈ data.waypoints ∧
      normWithin (wpDistSq planner.graph location.xy W)
        data.nav_params.max_merge_waypoint_distance = true ∧
      d2 = wpDistSq planner.graph location.xy W := by
    rcases hsrc with h | h
    · exact absurd h (by simp)
    · exact h
  have hsw := startsFromWaypoint_ok planner.graph env.now location.yaw
    location.xy (planner.graph.lanes_from W)
    [⟨env.now, W, location.yaw, location.xy, none⟩] hlanes
  have hrs : reconcileStarts data planner.graph env.compute_plan_starts map
      location env.now =
      .ok (⟨env.now, W, location.yaw, location.xy, none⟩ ::
        ((planner.graph.lanes_from W).filter
          (fun l => !planner.graph.is_closed l)).map
          (fun l => ⟨env.now, (planner.graph.get_lane l).exit,
            location.yaw, location.xy, some l⟩)) := by
    simp only [reconcileStarts, hwp]
    exact hsw
  refine ⟨⟨hsrc2.1, hsrc2.2.1, hsrc2.2.2, hmin⟩, ?_, ?_⟩
  · exact (update_location_ok_starts data env planner map location ctx _
      hso hpl hrs).1
  · intro lanes2 cps2
    have hso2 : ({ data with lanes := lanes2 } : Data).schedule_override =
        none := by
      simpa using hso
    have hrs2 : reconcileStarts
        ⟨data.waypoints, lanes2, data.final_orientation, none,
          data.nav_params⟩ planner.graph
        cps2 map location env.now =
        .ok (⟨env.now, W, location.yaw, location.xy, none⟩ ::
          ((planner.graph.lanes_from W).filter
            (fun l => !planner.graph.is_closed l)).map
            (fun l => ⟨env.now, (planner.graph.get_lane l).exit,
              location.yaw, location.xy, some l⟩)) := by
      simp only [reconcileStarts, hwp]
      exact hsw
    simp only [Data.update_location, hso, hso2, hpl, hrs, hrs2]

theorem update_location_waypoint_match_witness :
    let g : Graph :=
      { waypoints := [⟨0, 0⟩, ⟨1, 0⟩, ⟨0, 1⟩]
        lanes := [⟨0, 1⟩, ⟨0, 2⟩]
        lanes_from := fun w => if w = 0 then [0, 1] else []
        lane_from := fun _ _ => none
        is_closed := fun l => decide (l = 1) }
    let planner : Planner := ⟨g, ⟨1, 1⟩⟩
    let env : Env := ⟨some planner, fun _ _ _ _ _ _ _ => [], 0⟩
    let data : Data := ⟨[0], [], none, none, ⟨1 / 10, 1, 1 / 100000000⟩⟩
    let ctx : ContextState := ⟨[], [], [], 0⟩
    (data.update_location env "L1" ⟨0, 0, 0⟩ ctx).location =
      [⟨0, 0, 0, ⟨0, 0⟩, none⟩, ⟨0, 1, 0, ⟨0, 0⟩, some 0⟩] := by
  have h := update_location_waypoint_match
    ⟨[0], [], none, none, ⟨1 / 10, 1, 1 / 100000000⟩⟩
    ⟨some ⟨{ waypoints := [⟨0, 0⟩, ⟨1, 0⟩, ⟨0, 1⟩]
             lanes := [⟨0, 1⟩, ⟨0, 2⟩]
             lanes_from := fun w => if w = 0 then [0, 1] else []
             lane_from := fun _ _ => none
             is_closed := fun l => decide (l = 1) }, ⟨1, 1⟩⟩,
      fun _ _ _ _ _ _ _ => [], 0⟩
    ⟨{ waypoints := [⟨0, 0⟩, ⟨1, 0⟩, ⟨0, 1⟩]
       lanes := [⟨0, 1⟩, ⟨0, 2⟩]
       lanes_from := fun w => if w = 0 then [0, 1] else []
       lane_from := fun _ _ => none
       is_closed := fun l => decide (l = 1) }, ⟨1, 1⟩⟩
    "L1" ⟨0, 0, 0⟩ ⟨[], [], [], 0⟩ 0 0 rfl rfl
    (by norm_num [findOnWaypoint, normWithin, wpDistSq, Vec2.sub, Vec2.dot,
      Vec2.sqNorm, Vec3.xy, Graph.get_waypoint, Graph.num_waypoints])
    (by decide)
  exact h.2.1.trans (by simp [Vec3.xy, Graph.get_lane])

/-- Claim C6: when no hinted waypoint matches and the hinted-lane scan
matches, the matched lane is a hinted, open lane whose projection of the
sample lies within [0, length] with lateral distance within
max_merge_lane_distance, minimal among all accepted hinted lanes; and the
stored start set is a PlanStart for the lane's exit waypoint through the
lane plus, exactly when the graph holds a reverse lane, a second PlanStart
for the entry waypoint through that reverse lane. -/
theorem update_location_lane_match
    (data : Data) (env : Env) (planner : Planner) (map : String)
    (location : Vec3) (ctx : ContextState) (L : Nat) (d2 : ℚ)
    (hso : data.schedule_override = none)
    (hpl : env.planner = some planner)
    (hwp : findOnWaypoint planner.graph data.nav_params location.xy
      data.waypoints none = .ok none)
    (hlane : findOnLane planner.graph data.nav_params location.xy
      data.lanes none = .ok (some (L, d2))) :
    (L ∈ data.lanes ∧ planner.graph.is_closed L = false ∧
      laneAccepts planner.graph data.nav_params location.xy L = true ∧
      d2 = laneDistSq planner.graph location.xy L ∧
      (∀ l ∈ data.lanes, planner.graph.is_closed l = false →
        laneAccepts planner.graph data.nav_params location.xy l = true →
        d2 ≤ laneDistSq planner.graph location.xy l)) ∧
    (data.update_location env map location ctx).location =
      ⟨env.now, (planner.graph.get_lane L).exit, location.yaw,
        location.xy, some L⟩ ::
        (match planner.graph.lane_from (planner.graph.get_lane L).exit
          (planner.graph.get_lane L).entry with
        | some rev => [⟨env.now, (planner.graph.get_lane L).entry,
            location.yaw, location.xy, some rev⟩]
        | none => []) := by
  obtain ⟨hsrc, hmin, _⟩ := findOnLane_ok_some planner.graph
    data.nav_params location.xy data.lanes none L d2 hlane
  have hsrc2 : L ∈ data.lanes ∧ planner.graph.is_closed L = false ∧
      laneAccepts planner.graph data.nav_params location.xy L = true ∧
      d2 = laneDistSq planner.graph location.xy L := by
    rcases hsrc with h | h
    · exact absurd h (by simp)
    · exact h
  have hsl : startsFromLane planner.graph env.now location.yaw
      location.xy L =
      ⟨env.now, (planner.graph.get_lane L).exit, location.yaw,
        location.xy, some L⟩ ::
        (match planner.graph.lane_from (planner.graph.get_lane L).exit
          (planner.graph.get_lane L).entry with
        | some rev => [⟨env.now, (planner.graph.get_lane L).entry,
            location.yaw, location.xy, some rev⟩]
        | none => []) := by
    cases hrev : planner.graph.lane_from (planner.graph.get_lane L).exit
      (planner.graph.get_lane L).entry <;>
      simp [startsFromLane, hrev]
  have hrs : reconcileStarts data planner.graph env.compute_plan_starts map
      location env.now =
      .ok (startsFromLane planner.graph env.now location.yaw
        location.xy L) := by
    simp only [reconcileStarts, hwp, hlane]
  refine ⟨⟨hsrc2.1, hsrc2.2.1, hsrc2.2.2.1, hsrc2.2.2.2, hmin⟩, ?_⟩
  rw [(update_location_ok_starts data env planner map location ctx _
    hso hpl hrs).1]
  exact hsl

theorem update_location_lane_match_witness :
    let g : Graph :=
      { waypoints := [⟨0, 0⟩, ⟨2, 0⟩]
        lanes := [⟨0, 1⟩, ⟨1, 0⟩]
        lanes_from := fun _ => []
        lane_from := fun a b => if a = 1 ∧ b = 0 then some 1 else none
        is_closed := fun _ => false }
    let planner : Planner := ⟨g, ⟨1, 1⟩⟩
    let env : Env := ⟨some planner, fun _ _ _ _ _ _ _ => [], 0⟩
    let data : Data := ⟨[0, 1], [0], none, none, ⟨1 / 10, 1, 1 / 100000000⟩⟩
    let ctx : ContextState := ⟨[], [], [], 0⟩
    (data.update_location env "L1" ⟨1, 1 / 2, 0⟩ ctx).location =
      [⟨0, 1, 0, ⟨1, 1 / 2⟩, some 0⟩, ⟨0, 0, 0, ⟨1, 1 / 2⟩, some 1⟩] := by
  have h := update_location_lane_match
    ⟨[0, 1], [0], none, none, ⟨1 / 10, 1, 1 / 100000000⟩⟩
    ⟨some ⟨{ waypoints := [⟨0, 0⟩, ⟨2, 0⟩]
             lanes := [⟨0, 1⟩, ⟨1, 0⟩]
             lanes_from := fun _ => []
             lane_from := fun a b => if a = 1 ∧ b = 0 then some 1 else none
             is_closed := fun _ => false }, ⟨1, 1⟩⟩,
      fun _ _ _ _ _ _ _ => [], 0⟩
    ⟨{ waypoints := [⟨0, 0⟩, ⟨2, 0⟩]
       lanes := [⟨0, 1⟩, ⟨1, 0⟩]
       lanes_from := fun _ => []
       lane_from := fun a b => if a = 1 ∧ b = 0 then some 1 else none
       is_closed := fun _ => false }, ⟨1, 1⟩⟩
    "L1" ⟨1, 1 / 2, 0⟩ ⟨[], [], [], 0⟩ 0 (1 / 4) rfl rfl
    (by norm_num [findOnWaypoint, normWithin, wpDistSq, Vec2.sub, Vec2.dot,
      Vec2.sqNorm, Vec3.xy, Graph.get_waypoint, Graph.num_waypoints])
    (by norm_num [findOnLane, normWithin, segDot, segSqLen, segDistSq,
      Vec2.sub, Vec2.dot, Vec2.sqNorm, Vec3.xy, Graph.get_waypoint,
      Graph.get_lane, Graph.num_lanes])
  exact h.2.trans (by norm_num [Vec3.xy, Graph.get_lane])

/-- Claim C9 counterexample: a command that references an out-of-range
lane index is NOT always dropped. With one hinted waypoint that matches
and a hinted lane index 5 far outside the two-lane graph, the update takes
the waypoint branch, never inspects the bad lane hint, and mutates the
robot's location state. -/
theorem update_location_bad_lane_not_dropped :
    let g : Graph :=
      { waypoints := [⟨0, 0⟩, ⟨1, 0⟩, ⟨0, 1⟩]
        lanes := [⟨0, 1⟩, ⟨0, 2⟩]
        lanes_from := fun w => if w = 0 then [0, 1] else []
        lane_from := fun _ _ => none
        is_closed := fun l => decide (l = 1) }
    let planner : Planner := ⟨g, ⟨1, 1⟩⟩
    let env : Env := ⟨some planner, fun _ _ _ _ _ _ _ => [], 0⟩
    let data : Data := ⟨[0], [5], none, none, ⟨1 / 10, 1, 1 / 100000000⟩⟩
    let ctx : ContextState := ⟨[], [], [], 0⟩
    (∃ l ∈ data.lanes, g.num_lanes ≤ l) ∧
    data.update_location env "L1" ⟨0, 0, 0⟩ ctx ≠ ctx := by
  refine ⟨⟨5, by decide, by decide⟩, ?_⟩
  intro heq
  have hwp : findOnWaypoint
      ({ waypoints := [⟨0, 0⟩, ⟨1, 0⟩, ⟨0, 1⟩]
         lanes := [⟨0, 1⟩, ⟨0, 2⟩]
         lanes_from := fun w => if w = 0 then [0, 1] else []
         lane_from := fun _ _ => none
         is_closed := fun l => decide (l = 1) } : Graph)
      ⟨1 / 10, 1, 1 / 100000000⟩ (⟨0, 0, 0⟩ : Vec3).xy [0] none =
      .ok (some (0, 0)) := by
    norm_num [findOnWaypoint, normWithin, wpDistSq, Vec2.sub, Vec2.dot,
      Vec2.sqNorm, Vec3.xy, Graph.get_waypoint, Graph.num_waypoints]
  have hsw := startsFromWaypoint_ok
    ({ waypoints := [⟨0, 0⟩, ⟨1, 0⟩, ⟨0, 1⟩]
       lanes := [⟨0, 1⟩, ⟨0, 2⟩]
       lanes_from := fun w => if w = 0 then [0, 1] else []
       lane_from := fun _ _ => none
       is_closed := fun l => decide (l = 1) } : Graph)
    0 (⟨0, 0, 0⟩ : Vec3).yaw (⟨0, 0, 0⟩ : Vec3).xy
    ((({ waypoints := [⟨0, 0⟩, ⟨1, 0⟩, ⟨0, 1⟩]
         lanes := [⟨0, 1⟩, ⟨0, 2⟩]
         lanes_from := fun w => if w = 0 then [0, 1] else []
         lane_from := fun _ _ => none
         is_closed := fun l => decide (l = 1) } : Graph)).lanes_from 0)
    [⟨0, 0, (⟨0, 0, 0⟩ : Vec3).yaw, (⟨0, 0, 0⟩ : Vec3).xy, none⟩]
    (by decide)
  have hstep : reconcileStarts
      (⟨[0], [5], none, none, ⟨1 / 10, 1, 1 / 100000000⟩⟩ : Data)
      ({ waypoints := [⟨0, 0⟩, ⟨1, 0⟩, ⟨0, 1⟩]
         lanes := [⟨0, 1⟩, ⟨0, 2⟩]
         lanes_from := fun w => if w = 0 then [0, 1] else []
         lane_from := fun _ _ => none
         is_closed := fun l => decide (l = 1) } : Graph)
      (fun _ _ _ _ _ _ _ => []) "L1" ⟨0, 0, 0⟩ 0 =
      startsFromWaypoint
      ({ waypoints := [⟨0, 0⟩, ⟨1, 0⟩, ⟨0, 1⟩]
         lanes := [⟨0, 1⟩, ⟨0, 2⟩]
         lanes_from := fun w => if w = 0 then [0, 1] else []
         lane_from := fun _ _ => none
         is_closed := fun l => decide (l = 1) } : Graph)
      0 (⟨0, 0, 0⟩ : Vec3).yaw (⟨0, 0, 0⟩ : Vec3).xy
      ((({ waypoints := [⟨0, 0⟩, ⟨1, 0⟩, ⟨0, 1⟩]
           lanes := [⟨0, 1⟩, ⟨0, 2⟩]
           lanes_from := fun w => if w = 0 then [0, 1] else []
           lane_from := fun _ _ => none
           is_closed := fun l => decide (l = 1) } : Graph)).lanes_from 0)
      [⟨0, 0, (⟨0, 0, 0⟩ : Vec3).yaw, (⟨0, 0, 0⟩ : Vec3).xy, none⟩] := by
    simp only [reconcileStarts, hwp]
  have hrs := hstep.trans hsw
  have hloc := (update_location_ok_starts
    (⟨[0], [5], none, none, ⟨1 / 10, 1, 1 / 100000000⟩⟩ : Data)
    ⟨some ⟨{ waypoints := [⟨0, 0⟩, ⟨1, 0⟩, ⟨0, 1⟩]
             lanes := [⟨0, 1⟩, ⟨0, 2⟩]
             lanes_from := fun w => if w = 0 then [0, 1] else []
             lane_from := fun _ _ => none
             is_closed := fun l => decide (l = 1) }, ⟨1, 1⟩⟩,
      fun _ _ _ _ _ _ _ => [], 0⟩
    ⟨{ waypoints := [⟨0, 0⟩, ⟨1, 0⟩, ⟨0, 1⟩]
       lanes := [⟨0, 1⟩, ⟨0, 2⟩]
       lanes_from := fun w => if w = 0 then [0, 1] else []
       lane_from := fun _ _ => none
       is_closed := fun l => decide (l = 1) }, ⟨1, 1⟩⟩
    "L1" ⟨0, 0, 0⟩ ⟨[], [], [], 0⟩ _ rfl rfl hrs).1
  rw [heq] at hloc
  simp [Vec3.xy, Graph.get_lane] at hloc

/-- Claim C9 amended: an update is dropped with no state change whenever
the reconciliation actually consults an out-of-range index: always, for a
bad hinted waypoint (the waypoint loop scans every hint), and for a bad
hinted lane whenever no hinted waypoint matched (the lane loop only runs
in that case). A bad lane hint shadowed by a waypoint match is never
consulted and does not drop the update. -/
theorem update_location_range_error_dropped
    (data : Data) (env : Env) (planner : Planner) (map : String)
    (location : Vec3) (ctx : ContextState)
    (hso : data.schedule_override = none)
    (hpl : env.planner = some planner) :
    ((∃ wp ∈ data.waypoints, planner.graph.num_waypoints ≤ wp) →
      data.update_location env map location ctx = ctx) ∧
    (findOnWaypoint planner.graph data.nav_params location.xy
        data.waypoints none = .ok none →
      (∃ l ∈ data.lanes, planner.graph.num_lanes ≤ l) →
      data.update_location env map location ctx = ctx) := by
  constructor
  · intro hbad
    obtain ⟨e, he⟩ := findOnWaypoint_bad_index planner.graph data.nav_params
      location.xy data.waypoints none hbad
    have hrs : reconcileStarts data planner.graph env.compute_plan_starts
        map location env.now = .error e := by
      simp only [reconcileStarts, he]
    exact update_location_error data env planner map location ctx e hso hpl
      hrs
  · intro hwp hbad
    obtain ⟨e, he⟩ := findOnLane_bad_index planner.graph data.nav_params
      location.xy data.lanes none hbad
    have hrs : reconcileStarts data planner.graph env.compute_plan_starts
        map location env.now = .error e := by
      simp only [reconcileStarts, hwp, he]
    exact update_location_error data env planner map location ctx e hso hpl
      hrs

theorem update_location_range_error_dropped_witness :
    let g : Graph :=
      { waypoints := [⟨0, 0⟩]
        lanes := []
        lanes_from := fun _ => []
        lane_from := fun _ _ => none
        is_closed := fun _ => false }
    let env : Env := ⟨some ⟨g, ⟨1, 1⟩⟩, fun _ _ _ _ _ _ _ => [], 0⟩
    let data : Data := ⟨[3], [], none, none, ⟨1 / 10, 1, 1 / 100000000⟩⟩
    let ctx : ContextState := ⟨[], [], [], 0⟩
    data.update_location env "L1" ⟨0, 0, 0⟩ ctx = ctx :=
  (update_location_range_error_dropped
    ⟨[3], [], none, none, ⟨1 / 10, 1, 1 / 100000000⟩⟩
    ⟨some ⟨{ waypoints := [⟨0, 0⟩]
             lanes := []
             lanes_from := fun _ => []
             lane_from := fun _ _ => none
             is_closed := fun _ => false }, ⟨1, 1⟩⟩,
      fun _ _ _ _ _ _ _ => [], 0⟩
    ⟨{ waypoints := [⟨0, 0⟩]
       lanes := []
       lanes_from := fun _ => []
       lane_from := fun _ _ => none
       is_closed := fun _ => false }, ⟨1, 1⟩⟩
    "L1" ⟨0, 0, 0⟩ ⟨[], [], [], 0⟩ rfl rfl).1 ⟨3, by decide, by decide⟩

/-- Claim C8: the no-activity path of update_position does NOT store the
start set it resolves. Whenever the planner is available, the scheduled job
computes the whole-graph compute_plan_starts result and then returns the
context state entirely unchanged — the resolved PlanStart set is dropped
instead of being written into the robot's live location state, unlike
Data::update_location, which stores it via set_location. -/
theorem update_position_discards_starts
    (env : Env) (params : NavParams) (planner : Planner)
    (map_name : String) (position : Vec3) (ctx : ContextState)
    (hpl : env.planner = some planner) :
    update_position none env params map_name position ctx = .ok ctx := by
  simp [update_position, hpl]

theorem update_position_discards_starts_witness :
    let g : Graph :=
      { waypoints := [⟨0, 0⟩]
        lanes := []
        lanes_from := fun _ => []
        lane_from := fun _ _ => none
        is_closed := fun _ => false }
    let env : Env :=
      ⟨some ⟨g, ⟨1, 1⟩⟩, fun _ _ _ _ _ _ _ => [⟨0, 0, 0, ⟨0, 0⟩, none⟩], 0⟩
    let params : NavParams := ⟨1 / 10, 1, 1 / 100000000⟩
    let ctx : ContextState := ⟨[], [], [], 0⟩
    (env.compute_plan_starts g "L1" ⟨0, 0, 0⟩ 0
        params.max_merge_waypoint_distance params.max_merge_lane_distance
        params.min_lane_length ≠ ctx.location) ∧
    update_position none env params "L1" ⟨0, 0, 0⟩ ctx = .ok ctx :=
  ⟨by simp,
   update_position_discards_starts
    ⟨some ⟨{ waypoints := [⟨0, 0⟩]
             lanes := []
             lanes_from := fun _ => []
             lane_from := fun _ _ => none
             is_closed := fun _ => false }, ⟨1, 1⟩⟩,
      fun _ _ _ _ _ _ _ => [⟨0, 0, 0, ⟨0, 0⟩, none⟩], 0⟩
    ⟨1 / 10, 1, 1 / 100000000⟩
    ⟨{ waypoints := [⟨0, 0⟩]
       lanes := []
       lanes_from := fun _ => []
       lane_from := fun _ _ => none
       is_closed := fun _ => false }, ⟨1, 1⟩⟩
    "L1" ⟨0, 0, 0⟩ ⟨[], [], [], 0⟩ rfl⟩

theorem trajPos_cons_succ (w : TrajectoryWaypoint)
    (l : List TrajectoryWaypoint) (k : Nat) :
    trajPos (w :: l) (k + 1) = trajPos l k := by
  simp [trajPos]

theorem segAccepts_cons_succ (w : TrajectoryWaypoint)
    (l : List TrajectoryWaypoint) (p : Vec2) (k : Nat) :
    segAccepts (w :: l) p (k + 1) = segAccepts l p k := by
  simp only [segAccepts, trajPos_cons_succ]

theorem trajSegDistSq_cons_succ (w : TrajectoryWaypoint)
    (l : List TrajectoryWaypoint) (p : Vec2) (k : Nat) :
    trajSegDistSq (w :: l) p (k + 1) = trajSegDistSq l p k := by
  simp only [trajSegDistSq, trajPos_cons_succ]

theorem findClosestSegment_ok (p : Vec2) :
    ∀ (l : List TrajectoryWaypoint) (i0 : Nat) (best : Option (Nat × ℚ))
      (j : Nat) (d : ℚ),
      findClosestSegment p l i0 best = some (j, d) →
      (best = some (j, d) ∨
        (∃ k, k + 1 < l.length ∧ j = i0 + k ∧ segAccepts l p k = true ∧
          d = trajSegDistSq l p k)) ∧
      (∀ k, k + 1 < l.length → segAccepts l p k = true →
        d ≤ trajSegDistSq l p k) ∧
      (∀ b : Nat × ℚ, best = some b → d ≤ b.2) := by
  intro l
  induction l with
  | nil =>
    intro i0 best j d hres
    replace hres : best = some (j, d) := hres
    refine ⟨.inl hres, by intro k hk; simp at hk, ?_⟩
    intro b hb
    rw [hres] at hb
    injection hb with hb2
    rw [← hb2]
  | cons w0 tl ih =>
    intro i0 best j d hres
    cases tl with
    | nil =>
      replace hres : best = some (j, d) := hres
      refine ⟨.inl hres, by intro k hk; simp at hk, ?_⟩
      intro b hb
      rw [hres] at hb
      injection hb with hb2
      rw [← hb2]
    | cons w1 rest =>
      rw [findClosestSegment] at hres
      have hlen : ∀ k, k + 1 < (w0 :: w1 :: rest).length ↔
          k = 0 ∨ (∃ k2, k = k2 + 1 ∧ k2 + 1 < (w1 :: rest).length) := by
        intro k
        cases k with
        | zero => simp
        | succ k2 =>
          simp only [List.length_cons]
          constructor
          · intro hk
            exact .inr ⟨k2, rfl, by omega⟩
          · rintro (hk | ⟨k3, hk3, hk4⟩)
            · omega
            · simp at hk3
              subst hk3
              simp at hk4
              omega
      have hacc0 : segAccepts (w0 :: w1 :: rest) p 0 =
          (!decide (segSqLen w0.position.xy w1.position.xy = 0) &&
           !decide (segDot p w0.position.xy w1.position.xy < 0 ∨
             segSqLen w0.position.xy w1.position.xy <
               segDot p w0.position.xy w1.position.xy)) := by
        simp [segAccepts, trajPos]
      have hdist0 : trajSegDistSq (w0 :: w1 :: rest) p 0 =
          segDistSq p w0.position.xy w1.position.xy := by
        simp [trajSegDistSq, trajPos]
      by_cases hz : segSqLen w0.position.xy w1.position.xy = 0
      · simp only [if_pos hz] at hres
        obtain ⟨hsrc, hmin, hbest⟩ := ih (i0 + 1) best j d hres
        refine ⟨?_, ?_, hbest⟩
        · rcases hsrc with h | h
          · exact .inl h
          · obtain ⟨k, hk1, hk2, hk3, hk4⟩ := h
            refine .inr ⟨k + 1, by simp only [List.length_cons] at hk1 ⊢; omega, by omega, ?_, ?_⟩
            · rw [segAccepts_cons_succ]; exact hk3
            · rw [trajSegDistSq_cons_succ]; exact hk4
        · intro k hk hka
          rcases (hlen k).mp hk with hk0 | ⟨k2, hk2, hk3⟩
          · subst hk0
            rw [hacc0] at hka
            simp [hz] at hka
          · subst hk2
            rw [segAccepts_cons_succ] at hka
            rw [trajSegDistSq_cons_succ]
            exact hmin k2 hk3 hka
      · simp only [if_neg hz] at hres
        by_cases hpr : segDot p w0.position.xy w1.position.xy < 0 ∨
            segSqLen w0.position.xy w1.position.xy <
              segDot p w0.position.xy w1.position.xy
        · simp only [if_pos hpr] at hres
          obtain ⟨hsrc, hmin, hbest⟩ := ih (i0 + 1) best j d hres
          refine ⟨?_, ?_, hbest⟩
          · rcases hsrc with h | h
            · exact .inl h
            · obtain ⟨k, hk1, hk2, hk3, hk4⟩ := h
              refine .inr ⟨k + 1, by simp only [List.length_cons] at hk1 ⊢; omega, by omega, ?_, ?_⟩
              · rw [segAccepts_cons_succ]; exact hk3
              · rw [trajSegDistSq_cons_succ]; exact hk4
          · intro k hk hka
            rcases (hlen k).mp hk with hk0 | ⟨k2, hk2, hk3⟩
            · subst hk0
              rw [hacc0] at hka
              simp [hpr] at hka
            · subst hk2
              rw [segAccepts_cons_succ] at hka
              rw [trajSegDistSq_cons_succ]
              exact hmin k2 hk3 hka
        · simp only [if_neg hpr] at hres
          have hacc_head : segAccepts (w0 :: w1 :: rest) p 0 = true := by
            rw [hacc0]
            simp [hz, hpr]
          cases best with
          | none =>
            obtain ⟨hsrc, hmin, hbest⟩ := ih (i0 + 1) _ j d hres
            have hda : d ≤ segDistSq p w0.position.xy w1.position.xy :=
              hbest (i0, segDistSq p w0.position.xy w1.position.xy) rfl
            refine ⟨?_, ?_, by simp⟩
            · rcases hsrc with h | h
              · have hpair := Option.some.inj h
                have hja : j = i0 := (congrArg Prod.fst hpair).symm
                have hdd : d = segDistSq p w0.position.xy w1.position.xy :=
                  (congrArg Prod.snd hpair).symm
                refine .inr ⟨0, by simp, by omega, hacc_head, ?_⟩
                rw [hdist0]
                exact hdd
              · obtain ⟨k, hk1, hk2, hk3, hk4⟩ := h
                refine .inr ⟨k + 1, by simp only [List.length_cons] at hk1 ⊢; omega, by omega, ?_, ?_⟩
                · rw [segAccepts_cons_succ]; exact hk3
                · rw [trajSegDistSq_cons_succ]; exact hk4
            · intro k hk hka
              rcases (hlen k).mp hk with hk0 | ⟨k2, hk2, hk3⟩
              · subst hk0
                rw [hdist0]
                exact hda
              · subst hk2
                rw [segAccepts_cons_succ] at hka
                rw [trajSegDistSq_cons_succ]
                exact hmin k2 hk3 hka
          | some b =>
            by_cases hlt : segDistSq p w0.position.xy w1.position.xy < b.2
            · simp only [if_pos hlt] at hres
              obtain ⟨hsrc, hmin, hbest⟩ := ih (i0 + 1) _ j d hres
              have hda : d ≤ segDistSq p w0.position.xy w1.position.xy :=
                hbest (i0, segDistSq p w0.position.xy w1.position.xy) rfl
              refine ⟨?_, ?_, ?_⟩
              · rcases hsrc with h | h
                · have hpair := Option.some.inj h
                  have hja : j = i0 := (congrArg Prod.fst hpair).symm
                  have hdd : d = segDistSq p w0.position.xy w1.position.xy :=
                    (congrArg Prod.snd hpair).symm
                  refine .inr ⟨0, by simp, by omega, hacc_head, ?_⟩
                  rw [hdist0]
                  exact hdd
                · obtain ⟨k, hk1, hk2, hk3, hk4⟩ := h
                  refine .inr ⟨k + 1, by simp only [List.length_cons] at hk1 ⊢; omega, by omega, ?_, ?_⟩
                  · rw [segAccepts_cons_succ]; exact hk3
                  · rw [trajSegDistSq_cons_succ]; exact hk4
              · intro k hk hka
                rcases (hlen k).mp hk with hk0 | ⟨k2, hk2, hk3⟩
                · subst hk0
                  rw [hdist0]
                  exact hda
                · subst hk2
                  rw [segAccepts_cons_succ] at hka
                  rw [trajSegDistSq_cons_succ]
                  exact hmin k2 hk3 hka
              · intro b2 hb2
                injection hb2 with hb2
                rw [← hb2]
                calc d ≤ segDistSq p w0.position.xy w1.position.xy := hda
                  _ ≤ b.2 := le_of_lt hlt
            · simp only [if_neg hlt] at hres
              obtain ⟨hsrc, hmin, hbest⟩ := ih (i0 + 1) _ j d hres
              have hdb : d ≤ b.2 := hbest _ rfl
              refine ⟨?_, ?_, ?_⟩
              · rcases hsrc with h | h
                · exact .inl h
                · obtain ⟨k, hk1, hk2, hk3, hk4⟩ := h
                  refine .inr ⟨k + 1, by simp only [List.length_cons] at hk1 ⊢; omega, by omega, ?_, ?_⟩
                  · rw [segAccepts_cons_succ]; exact hk3
                  · rw [trajSegDistSq_cons_succ]; exact hk4
              · intro k hk hka
                rcases (hlen k).mp hk with hk0 | ⟨k2, hk2, hk3⟩
                · subst hk0
                  rw [hdist0]
                  push_neg at hlt
                  calc d ≤ b.2 := hdb
                    _ ≤ segDistSq p w0.position.xy w1.position.xy := hlt
                · subst hk2
                  rw [segAccepts_cons_succ] at hka
                  rw [trajSegDistSq_cons_succ]
                  exact hmin k2 hk3 hka
              · intro b2 hb2
                injection hb2 with hb2
                rw [← hb2]
                exact hdb

theorem findClosestSegment_none (p : Vec2) :
    ∀ (l : List TrajectoryWaypoint) (i0 : Nat) (best : Option (Nat × ℚ)),
      findClosestSegment p l i0 best = none →
      best = none ∧ ∀ k, k + 1 < l.length → segAccepts l p k = false := by
  intro l
  induction l with
  | nil =>
    intro i0 best hres
    replace hres : best = none := hres
    exact ⟨hres, by intro k hk; simp at hk⟩
  | cons w0 tl ih =>
    intro i0 best hres
    cases tl with
    | nil =>
      replace hres : best = none := hres
      exact ⟨hres, by intro k hk; simp at hk⟩
    | cons w1 rest =>
      rw [findClosestSegment] at hres
      have hsucc : ∀ (r : Option (Nat × ℚ)),
          (r = none ∧
            ∀ k, k + 1 < (w1 :: rest).length →
              segAccepts (w1 :: rest) p k = false) →
          segAccepts (w0 :: w1 :: rest) p 0 = false →
          r = none ∧
            ∀ k, k + 1 < (w0 :: w1 :: rest).length →
              segAccepts (w0 :: w1 :: rest) p k = false := by
        intro r hr h0
        refine ⟨hr.1, ?_⟩
        intro k hk
        cases k with
        | zero => exact h0
        | succ k2 =>
          rw [segAccepts_cons_succ]
          exact hr.2 k2 (by simp only [List.length_cons] at hk ⊢; omega)
      by_cases hz : segSqLen w0.position.xy w1.position.xy = 0
      · simp only [if_pos hz] at hres
        refine hsucc best (ih (i0 + 1) best hres) ?_
        simp [segAccepts, trajPos, hz]
      · simp only [if_neg hz] at hres
        by_cases hpr : segDot p w0.position.xy w1.position.xy < 0 ∨
            segSqLen w0.position.xy w1.position.xy <
              segDot p w0.position.xy w1.position.xy
        · simp only [if_pos hpr] at hres
          refine hsucc best (ih (i0 + 1) best hres) ?_
          simp only [segAccepts, trajPos]
          simp [hpr]
        · simp only [if_neg hpr] at hres
          cases best with
          | none =>
            have := (ih (i0 + 1) _ hres).1
            simp at this
          | some b =>
            by_cases hlt : segDistSq p w0.position.xy w1.position.xy < b.2
            · simp only [if_pos hlt] at hres
              have := (ih (i0 + 1) _ hres).1
              simp at this
            · simp only [if_neg hlt] at hres
              have := (ih (i0 + 1) _ hres).1
              simp at this

theorem findClosestTime_ok (p : Vec2) :
    ∀ (l : List TrajectoryWaypoint) (best : Option (ℚ × ℚ)) (t ds : ℚ),
      findClosestTime p l best = some (t, ds) →
      (best = some (t, ds) ∨
        (∃ w ∈ l, t = w.time ∧ ds = (p.sub w.position.xy).sqNorm)) ∧
      (∀ w ∈ l, ds ≤ (p.sub w.position.xy).sqNorm) ∧
      (∀ b : ℚ × ℚ, best = some b → ds ≤ b.2) := by
  intro l
  induction l with
  | nil =>
    intro best t ds hres
    rw [findClosestTime] at hres
    refine ⟨.inl hres, by simp, ?_⟩
    intro b hb
    rw [hres] at hb
    injection hb with hb2
    rw [← hb2]
  | cons w0 rest ih =>
    intro best t ds hres
    cases best with
    | none =>
      rw [findClosestTime] at hres
      obtain ⟨hsrc, hmin, hbest⟩ := ih _ t ds hres
      have hda : ds ≤ (p.sub w0.position.xy).sqNorm :=
        hbest (w0.time, (p.sub w0.position.xy).sqNorm) rfl
      refine ⟨?_, ?_, by simp⟩
      · rcases hsrc with h | h
        · have hpair := Option.some.inj h
          refine .inr ⟨w0, List.mem_cons_self _ _,
            (congrArg Prod.fst hpair).symm, (congrArg Prod.snd hpair).symm⟩
        · obtain ⟨w, hw1, hw2, hw3⟩ := h
          exact .inr ⟨w, List.mem_cons_of_mem _ hw1, hw2, hw3⟩
      · intro w hw
        rcases List.mem_cons.mp hw with hw | hw
        · rw [hw]; exact hda
        · exact hmin w hw
    | some b =>
      rw [findClosestTime] at hres
      by_cases hlt : (p.sub w0.position.xy).sqNorm < b.2
      · simp only [if_pos hlt] at hres
        obtain ⟨hsrc, hmin, hbest⟩ := ih _ t ds hres
        have hda : ds ≤ (p.sub w0.position.xy).sqNorm :=
          hbest (w0.time, (p.sub w0.position.xy).sqNorm) rfl
        refine ⟨?_, ?_, ?_⟩
        · rcases hsrc with h | h
          · have hpair := Option.some.inj h
            refine .inr ⟨w0, List.mem_cons_self _ _,
              (congrArg Prod.fst hpair).symm, (congrArg Prod.snd hpair).symm⟩
          · obtain ⟨w, hw1, hw2, hw3⟩ := h
            exact .inr ⟨w, List.mem_cons_of_mem _ hw1, hw2, hw3⟩
        · intro w hw
          rcases List.mem_cons.mp hw with hw | hw
          · rw [hw]; exact hda
          · exact hmin w hw
        · intro b2 hb2
          injection hb2 with hb2
          rw [← hb2]
          calc ds ≤ (p.sub w0.position.xy).sqNorm := hda
            _ ≤ b.2 := le_of_lt hlt
      · simp only [if_neg hlt] at hres
        obtain ⟨hsrc, hmin, hbest⟩ := ih _ t ds hres
        have hdb : ds ≤ b.2 := hbest _ rfl
        refine ⟨?_, ?_, ?_⟩
        · rcases hsrc with h | h
          · exact .inl h
          · obtain ⟨w, hw1, hw2, hw3⟩ := h
            exact .inr ⟨w, List.mem_cons_of_mem _ hw1, hw2, hw3⟩
        · intro w hw
          rcases List.mem_cons.mp hw with hw | hw
          · rw [hw]
            push_neg at hlt
            calc ds ≤ b.2 := hdb
              _ ≤ (p.sub w0.position.xy).sqNorm := hlt
          · exact hmin w hw
        · intro b2 hb2
          injection hb2 with hb2
          rw [← hb2]
          exact hdb

theorem findClosestTime_some_of_best (p : Vec2) :
    ∀ (l : List TrajectoryWaypoint) (b : ℚ × ℚ),
      ∃ r, findClosestTime p l (some b) = some r := by
  intro l
  induction l with
  | nil => intro b; exact ⟨b, rfl⟩
  | cons w0 rest ih =>
    intro b
    show ∃ r,
      (if (p.sub w0.position.xy).sqNorm < b.2 then
        findClosestTime p rest (some (w0.time, (p.sub w0.position.xy).sqNorm))
      else findClosestTime p rest (some b)) = some r
    by_cases hlt : (p.sub w0.position.xy).sqNorm < b.2
    · simp only [if_pos hlt]
      exact ih _
    · simp only [if_neg hlt]
      exact ih _

theorem findClosestTime_none (p : Vec2) (l : List TrajectoryWaypoint)
    (hres : findClosestTime p l none = none) : l = [] := by
  cases l with
  | nil => rfl
  | cons w0 rest =>
    rw [findClosestTime] at hres
    obtain ⟨r, hr⟩ := findClosestTime_some_of_best p rest
      (w0.time, (p.sub w0.position.xy).sqNorm)
    rw [hr] at hres
    simp at hres

theorem segAccepts_iff (traj : List TrajectoryWaypoint) (p : Vec2) (k : Nat)
    (h : segSqLen (trajPos traj k) (trajPos traj (k + 1)) ≠ 0) :
    segAccepts traj p k = true ↔
      (0 ≤ segDot p (trajPos traj k) (trajPos traj (k + 1)) ∧
        segDot p (trajPos traj k) (trajPos traj (k + 1)) ≤
          segSqLen (trajPos traj k) (trajPos traj (k + 1))) := by
  simp [segAccepts, h, not_or, not_lt]

theorem overridden_update_location (data : Data) (env : Env) (map : String)
    (location : Vec3) (so : ScheduleOverride) (ctx : ContextState)
    (planner : Planner) (hpl : env.planner = some planner) :
    (overridden_update data env map location so ctx).location =
      env.compute_plan_starts planner.graph map location env.now
        data.nav_params.max_merge_waypoint_distance
        data.nav_params.max_merge_lane_distance
        data.nav_params.min_lane_length := by
  simp only [overridden_update, hpl]

theorem overridden_update_delays_seg (data : Data) (env : Env)
    (map : String) (location : Vec3) (so : ScheduleOverride)
    (ctx : ContextState) (i0 : Nat) (d : ℚ)
    (hseg : findClosestSegment location.xy so.route.trajectory 0 none =
      some (i0, d)) :
    (overridden_update data env map location so ctx).delays =
      ctx.delays ++ [⟨so.plan_id,
        env.now - expectedTimeAt so.route.trajectory i0 location.xy, 1⟩] := by
  simp only [overridden_update, hseg]
  cases env.planner <;> simp

theorem overridden_update_delays_time (data : Data) (env : Env)
    (map : String) (location : Vec3) (so : ScheduleOverride)
    (ctx : ContextState) (t ds : ℚ)
    (hseg : findClosestSegment location.xy so.route.trajectory 0 none = none)
    (hct : findClosestTime location.xy so.route.trajectory none =
      some (t, ds)) :
    (overridden_update data env map location so ctx).delays =
      ctx.delays ++ [⟨so.plan_id, env.now - t, 1⟩] := by
  simp only [overridden_update, hseg, hct]
  cases env.planner <;> simp

/-- Claim C7: with an active ScheduleOverride, the raw position is
projected onto each consecutive trajectory-sample pair treated as a line
segment; when some segment accepts the projection, the winner is a true
segment index, accepted (projection within [0, length]), of minimal
lateral distance among accepted segments, and the written delay is
now minus the interpolated expected time on that segment, recorded under
the override's plan id with a one-second threshold; when no segment
accepts, the delay comes from the trajectory sample nearest the position;
and whole-graph reconciliation supplies the stored PlanStart set. The
trajectory is assumed free of degenerate consecutive sample pairs, where
the C++ arithmetic produces NaN. -/
theorem overridden_update_reconciliation
    (data : Data) (env : Env) (planner : Planner) (map : String)
    (location : Vec3) (ctx : ContextState) (so : ScheduleOverride)
    (hso : data.schedule_override = some so)
    (hpl : env.planner = some planner)
    (hnd : ∀ k, k + 1 < so.route.trajectory.length →
      segSqLen (trajPos so.route.trajectory k)
        (trajPos so.route.trajectory (k + 1)) ≠ 0) :
    (data.update_location env map location ctx).location =
      env.compute_plan_starts planner.graph map location env.now
        data.nav_params.max_merge_waypoint_distance
        data.nav_params.max_merge_lane_distance
        data.nav_params.min_lane_length ∧
    (∀ i0 d, findClosestSegment location.xy so.route.trajectory 0 none =
        some (i0, d) →
      (i0 + 1 < so.route.trajectory.length ∧
        0 ≤ segDot location.xy (trajPos so.route.trajectory i0)
          (trajPos so.route.trajectory (i0 + 1)) ∧
        segDot location.xy (trajPos so.route.trajectory i0)
          (trajPos so.route.trajectory (i0 + 1)) ≤
          segSqLen (trajPos so.route.trajectory i0)
            (trajPos so.route.trajectory (i0 + 1)) ∧
        d = trajSegDistSq so.route.trajectory location.xy i0 ∧
        (∀ k, k + 1 < so.route.trajectory.length →
          0 ≤ segDot location.xy (trajPos so.route.trajectory k)
            (trajPos so.route.trajectory (k + 1)) →
          segDot location.xy (trajPos so.route.trajectory k)
            (trajPos so.route.trajectory (k + 1)) ≤
            segSqLen (trajPos so.route.trajectory k)
              (trajPos so.route.trajectory (k + 1)) →
          d ≤ trajSegDistSq so.route.trajectory location.xy k)) ∧
      (data.update_location env map location ctx).delays =
        ctx.delays ++ [⟨so.plan_id,
          env.now - expectedTimeAt so.route.trajectory i0 location.xy, 1⟩]) ∧
    (findClosestSegment location.xy so.route.trajectory 0 none = none →
      (∀ k, k + 1 < so.route.trajectory.length →
        ¬(0 ≤ segDot location.xy (trajPos so.route.trajectory k)
            (trajPos so.route.trajectory (k + 1)) ∧
          segDot location.xy (trajPos so.route.trajectory k)
            (trajPos so.route.trajectory (k + 1)) ≤
            segSqLen (trajPos so.route.trajectory k)
              (trajPos so.route.trajectory (k + 1)))) ∧
      (∀ t ds, findClosestTime location.xy so.route.trajectory none =
          some (t, ds) →
        (∃ w ∈ so.route.trajectory, t = w.time ∧
          ds = (location.xy.sub w.position.xy).sqNorm) ∧
        (∀ w ∈ so.route.trajectory,
          ds ≤ (location.xy.sub w.position.xy).sqNorm) ∧
        (data.update_location env map location ctx).delays =
          ctx.delays ++ [⟨so.plan_id, env.now - t, 1⟩])) := by
  have hdisp : data.update_location env map location ctx =
      overridden_update data env map location so ctx := by
    simp only [Data.update_location, hso]
  refine ⟨?_, ?_, ?_⟩
  · rw [hdisp]
    exact overridden_update_location data env map location so ctx planner hpl
  · intro i0 d hseg
    obtain ⟨hsrc, hmin, _⟩ := findClosestSegment_ok location.xy
      so.route.trajectory 0 none i0 d hseg
    have hsrc2 : ∃ k, k + 1 < so.route.trajectory.length ∧ i0 = 0 + k ∧
        segAccepts so.route.trajectory location.xy k = true ∧
        d = trajSegDistSq so.route.trajectory location.xy k := by
      rcases hsrc with h | h
      · exact absurd h (by simp)
      · exact h
    obtain ⟨k, hk1, hk2, hk3, hk4⟩ := hsrc2
    have hik : i0 = k := by omega
    subst hik
    have hacc := (segAccepts_iff so.route.trajectory location.xy i0
      (hnd i0 hk1)).mp hk3
    refine ⟨⟨hk1, hacc.1, hacc.2, hk4, ?_⟩, ?_⟩
    · intro k2 hk2a hk2b hk2c
      exact hmin k2 hk2a ((segAccepts_iff so.route.trajectory location.xy k2
        (hnd k2 hk2a)).mpr ⟨hk2b, hk2c⟩)
    · rw [hdisp]
      exact overridden_update_delays_seg data env map location so ctx i0 d
        hseg
  · intro hseg
    obtain ⟨_, hall⟩ := findClosestSegment_none location.xy
      so.route.trajectory 0 none hseg
    constructor
    · intro k hk hcon
      have := (segAccepts_iff so.route.trajectory location.xy k
        (hnd k hk)).mpr hcon
      rw [hall k hk] at this
      simp at this
    · intro t ds hct
      obtain ⟨hsrc, hmin, _⟩ := findClosestTime_ok location.xy
        so.route.trajectory none t ds hct
      have hsrc2 : ∃ w ∈ so.route.trajectory, t = w.time ∧
          ds = (location.xy.sub w.position.xy).sqNorm := by
        rcases hsrc with h | h
        · exact absurd h (by simp)
        · exact h
      refine ⟨hsrc2, hmin, ?_⟩
      rw [hdisp]
      exact overridden_update_delays_time data env map location so ctx t ds
        hseg hct

theorem overridden_update_reconciliation_witness :
    let g : Graph :=
      { waypoints := [⟨0, 0⟩]
        lanes := []
        lanes_from := fun _ => []
        lane_from := fun _ _ => none
        is_closed := fun _ => false }
    let so : ScheduleOverride :=
      ⟨⟨"m", [⟨0, ⟨0, 0, 0⟩⟩, ⟨10, ⟨2, 0, 0⟩⟩]⟩, 7⟩
    let env : Env := ⟨some ⟨g, ⟨1, 1⟩⟩, fun _ _ _ _ _ _ _ => [], 3⟩
    let data : Data := ⟨[], [], none, some so, ⟨1 / 10, 1, 1 / 100000000⟩⟩
    let ctx : ContextState := ⟨[], [], [], 0⟩
    (data.update_location env "m" ⟨1, 1 / 2, 0⟩ ctx).delays =
      [⟨7, -2, 1⟩] ∧
    (data.update_location env "m" ⟨1, 1 / 2, 0⟩ ctx).location = [] := by
  have h := overridden_update_reconciliation
    ⟨[], [], none, some ⟨⟨"m", [⟨0, ⟨0, 0, 0⟩⟩, ⟨10, ⟨2, 0, 0⟩⟩]⟩, 7⟩,
      ⟨1 / 10, 1, 1 / 100000000⟩⟩
    ⟨some ⟨{ waypoints := [⟨0, 0⟩]
             lanes := []
             lanes_from := fun _ => []
             lane_from := fun _ _ => none
             is_closed := fun _ => false }, ⟨1, 1⟩⟩,
      fun _ _ _ _ _ _ _ => [], 3⟩
    ⟨{ waypoints := [⟨0, 0⟩]
       lanes := []
       lanes_from := fun _ => []
       lane_from := fun _ _ => none
       is_closed := fun _ => false }, ⟨1, 1⟩⟩
    "m" ⟨1, 1 / 2, 0⟩ ⟨[], [], [], 0⟩
    ⟨⟨"m", [⟨0, ⟨0, 0, 0⟩⟩, ⟨10, ⟨2, 0, 0⟩⟩]⟩, 7⟩
    rfl rfl
    (by
      intro k hk
      have hk0 : k = 0 := by simp at hk; omega
      subst hk0
      norm_num [segSqLen, trajPos, Vec2.sub, Vec2.dot, Vec2.sqNorm, Vec3.xy])
  refine ⟨?_, ?_⟩
  · have h2 := (h.2.1 0 (1 / 4)
      (by norm_num [findClosestSegment, segSqLen, segDot, segDistSq,
        trajPos, Vec2.sub, Vec2.dot, Vec2.sqNorm, Vec3.xy])).2
    exact h2.trans (by norm_num [expectedTimeAt, trajPos, segDot, segSqLen,
      Vec2.sub, Vec2.dot, Vec2.sqNorm, Vec3.xy])
  · exact h.1.trans (by rfl)
